import Mathlib

/-!
Verification of the hpoea hyperparameter-optimization library.

This file gives a shallow embedding of the core data model and of the
operations of the library (parameter spaces, search spaces, the
hyperparameter tuning bridge, the budget helpers and the experiment
managers), translated from the C++ sources, and proves properties about
them.  C++ `double` is modelled by the real numbers, `std::size_t` and
`unsigned long` by natural numbers with explicit reduction modulo 2 ^ 64
where wrap-around matters, `std::int64_t` by integers, maps by
association lists, and functions that may throw by `Except String`.
-/

namespace HPOEA

/-- `hpoea::core::ParameterType` (include/hpoea/core/parameters.hpp). -/
inductive ParameterType
  | Continuous
  | Integer
  | Boolean
  | Categorical
deriving DecidableEq

/-- `hpoea::core::ContinuousRange`: a closed interval of doubles. -/
structure ContinuousRange where
  lower : ℝ
  upper : ℝ

/-- `hpoea::core::IntegerRange`: a closed interval of 64-bit integers. -/
structure IntegerRange where
  lower : ℤ
  upper : ℤ
deriving DecidableEq

/-- `hpoea::core::ParameterValue`: closed sum of double, int64, bool, string. -/
inductive ParameterValue
  | real (x : ℝ)
  | int (n : ℤ)
  | bool (b : Bool)
  | str (s : String)

/-- `hpoea::core::ParameterSet`: a name-indexed map of parameter values,
modelled as an association list with unique keys. -/
abbrev ParameterSet := List (String × ParameterValue)

/-- `hpoea::core::ParameterDescriptor`. -/
structure ParameterDescriptor where
  name : String
  type : ParameterType := ParameterType.Continuous
  continuous_range : Option ContinuousRange := none
  integer_range : Option IntegerRange := none
  categorical_choices : List String := []
  default_value : Option ParameterValue := none
  required : Bool := false

/-- `hpoea::core::ParameterSpace`: the ordered list of descriptors.
`add_descriptor` guarantees that names are unique, which theorems take as
a hypothesis. -/
abbrev ParameterSpace := List ParameterDescriptor

/-- `ParameterSpace::descriptor(name)` as a total lookup. -/
def ParameterSpace.descriptorOf (space : ParameterSpace) (n : String) :
    Option ParameterDescriptor :=
  space.find? (fun d => d.name = n)

/-- `ParameterSpace::validate_value` (src/core/parameters.cpp): type check
against the descriptor's declared type, then range / choice check. -/
noncomputable def validateValue (d : ParameterDescriptor) (v : ParameterValue) :
    Except String Unit :=
  match d.type, v with
  | ParameterType.Continuous, ParameterValue.real x =>
      match d.continuous_range with
      | some r =>
          if x < r.lower ∨ x > r.upper then
            Except.error ("Parameter " ++ d.name ++ " outside bounds")
          else Except.ok ()
      | none => Except.ok ()
  | ParameterType.Continuous, _ =>
      Except.error ("Parameter " ++ d.name ++ " expects continuous type")
  | ParameterType.Integer, ParameterValue.int n =>
      match d.integer_range with
      | some r =>
          if n < r.lower ∨ n > r.upper then
            Except.error ("Parameter " ++ d.name ++ " outside bounds")
          else Except.ok ()
      | none => Except.ok ()
  | ParameterType.Integer, _ =>
      Except.error ("Parameter " ++ d.name ++ " expects integer type")
  | ParameterType.Boolean, ParameterValue.bool _ => Except.ok ()
  | ParameterType.Boolean, _ =>
      Except.error ("Parameter " ++ d.name ++ " expects boolean type")
  | ParameterType.Categorical, ParameterValue.str s =>
      if s ∈ d.categorical_choices then Except.ok ()
      else Except.error ("Parameter " ++ d.name ++ " with invalid choice")
  | ParameterType.Categorical, _ =>
      Except.error ("Parameter " ++ d.name ++ " expects categorical type")

/-- First loop of `ParameterSpace::apply_defaults`: look each override up,
validate it and copy it into the result. -/
noncomputable def validateOverrides (space : ParameterSpace) :
    List (String × ParameterValue) → Except String ParameterSet
  | [] => Except.ok []
  | (n, v) :: rest =>
      match space.descriptorOf n with
      | none => Except.error ("Unknown parameter: " ++ n)
      | some d => do
          _ ← validateValue d v
          let r ← validateOverrides space rest
          Except.ok ((n, v) :: r)

/-- Second loop of `ParameterSpace::apply_defaults`: for every descriptor
not already present insert its (validated) default if one exists, else fail
if it is required, else leave it absent. -/
noncomputable def addDefaults (acc : ParameterSet) :
    List ParameterDescriptor → Except String ParameterSet
  | [] => Except.ok acc
  | d :: rest =>
      if (acc.lookup d.name).isSome then addDefaults acc rest
      else
        match d.default_value with
        | some dv => do
            _ ← validateValue d dv
            addDefaults (acc ++ [(d.name, dv)]) rest
        | none =>
            if d.required then
              Except.error ("Missing required parameter: " ++ d.name)
            else addDefaults acc rest

/-- `ParameterSpace::apply_defaults` (src/core/parameters.cpp lines 96-119). -/
noncomputable def applyDefaults (space : ParameterSpace) (overrides : ParameterSet) :
    Except String ParameterSet := do
  let base ← validateOverrides space overrides
  addDefaults base space

/-- `hpoea::core::SearchMode` (include/hpoea/core/search_space.hpp). -/
inductive SearchMode
  | optimize
  | fixed
  | exclude
deriving DecidableEq

/-- `hpoea::core::Transform`: the reparameterizations none/log10/log2/sqrt. -/
inductive Transform
  | none
  | log
  | log2
  | sqrt
deriving DecidableEq

/-- `hpoea::core::ParameterConfig`: one search-space entry. -/
structure ParameterConfig where
  mode : SearchMode := SearchMode.optimize
  fixed_value : Option ParameterValue := Option.none
  continuous_bounds : Option ContinuousRange := Option.none
  integer_bounds : Option IntegerRange := Option.none
  discrete_choices : List ParameterValue := []
  transform : Transform := Transform.none

/-- `hpoea::core::SearchSpace`: name-indexed configs, modelled as an
association list with unique keys. -/
abbrev SearchSpace := List (String × ParameterConfig)

/-- `SearchSpace::get(name)`. -/
def SearchSpace.get (ss : SearchSpace) (n : String) : Option ParameterConfig :=
  ss.lookup n

/-- `validate_transform_bounds` (src/core/search_space.cpp lines 227-251):
lower must not exceed upper; log transforms need a positive lower bound,
sqrt a non-negative one. -/
noncomputable def validateTransformBounds (bounds : ContinuousRange) (t : Transform) :
    Except String Unit :=
  if bounds.lower > bounds.upper then
    Except.error "invalid bounds: lower > upper"
  else
    match t with
    | Transform.none => Except.ok ()
    | Transform.log =>
        if bounds.lower ≤ 0 then
          Except.error "log transform requires positive bounds"
        else Except.ok ()
    | Transform.log2 =>
        if bounds.lower ≤ 0 then
          Except.error "log transform requires positive bounds"
        else Except.ok ()
    | Transform.sqrt =>
        if bounds.lower < 0 then
          Except.error "sqrt transform requires non-negative bounds"
        else Except.ok ()

/-- `apply_transform` (src/core/search_space.cpp lines 263-275): the
decoder of a transformed coordinate — identity, 10^x, 2^x or x*x.  The
floating-point `std::pow` is modelled by the exact real power. -/
noncomputable def applyTransform (value : ℝ) : Transform → ℝ
  | Transform.none => value
  | Transform.log => (10 : ℝ) ^ value
  | Transform.log2 => (2 : ℝ) ^ value
  | Transform.sqrt => value * value

/-- The encoding used by `transform_bounds` on each endpoint: log10, log2
or square root of the raw value (identity for `none`). -/
noncomputable def encodeTransform (x : ℝ) : Transform → ℝ
  | Transform.none => x
  | Transform.log => Real.logb 10 x
  | Transform.log2 => Real.logb 2 x
  | Transform.sqrt => Real.sqrt x

/-- `transform_bounds` (src/core/search_space.cpp lines 277-290):
re-validates the domain, then maps both endpoints through the forward
encoding. -/
noncomputable def transformBounds (bounds : ContinuousRange) (t : Transform) :
    Except String ContinuousRange := do
  _ ← validateTransformBounds bounds t
  Except.ok ⟨encodeTransform bounds.lower t, encodeTransform bounds.upper t⟩

/-- `clamp_bounds` for continuous ranges (src/core/search_space.cpp lines
253-256). -/
noncomputable def clampBoundsC (custom constraint : ContinuousRange) : ContinuousRange :=
  ⟨max custom.lower constraint.lower, min custom.upper constraint.upper⟩

/-- `clamp_bounds` for integer ranges (src/core/search_space.cpp lines
258-261). -/
def clampBoundsI (custom constraint : IntegerRange) : IntegerRange :=
  ⟨max custom.lower constraint.lower, min custom.upper constraint.upper⟩

/-- The per-entry body of `SearchSpace::validate` (src/core/search_space.cpp
lines 80-133). -/
noncomputable def validateConfigEntry (space : ParameterSpace) (n : String)
    (config : ParameterConfig) : Except String Unit := do
  match space.descriptorOf n with
  | Option.none =>
      Except.error ("search space references unknown parameter: " ++ n)
  | some descriptor => do
      _ ←
        match config.mode, config.fixed_value with
        | SearchMode.fixed, some value =>
            match descriptor.type with
            | ParameterType.Continuous =>
                match value with
                | ParameterValue.real v =>
                    match descriptor.continuous_range with
                    | some r =>
                        if v < r.lower ∨ v > r.upper then
                          Except.error ("fixed value for " ++ n ++ " outside valid range")
                        else Except.ok ()
                    | Option.none => Except.ok ()
                | _ => Except.error ("fixed value for " ++ n ++ " must be double")
            | ParameterType.Integer =>
                match value with
                | ParameterValue.int v =>
                    match descriptor.integer_range with
                    | some r =>
                        if v < r.lower ∨ v > r.upper then
                          Except.error ("fixed value for " ++ n ++ " outside valid range")
                        else Except.ok ()
                    | Option.none => Except.ok ()
                | _ => Except.error ("fixed value for " ++ n ++ " must be integer")
            | _ => Except.ok ()
        | _, _ => Except.ok ()
      _ ←
        if config.continuous_bounds.isSome ∧ descriptor.type ≠ ParameterType.Continuous then
          Except.error ("continuous bounds specified for non-continuous parameter: " ++ n)
        else Except.ok ()
      if config.integer_bounds.isSome ∧ descriptor.type ≠ ParameterType.Integer then
        Except.error ("integer bounds specified for non-integer parameter: " ++ n)
      else Except.ok ()

/-- `SearchSpace::validate` (src/core/search_space.cpp lines 79-134): runs
the per-entry check on every configured name. -/
noncomputable def SearchSpace.validate (ss : SearchSpace) (space : ParameterSpace) :
    Except String Unit :=
  match ss with
  | [] => Except.ok ()
  | (n, config) :: rest => do
      _ ← validateConfigEntry space n config
      SearchSpace.validate rest space

/-- The continuous half of the clamping step of
`SearchSpace::validate_and_clamp` (src/core/search_space.cpp lines
146-153): intersect a custom continuous bound with the descriptor's
declared range and re-validate the transform domain. -/
noncomputable def clampContinuousStep (descriptor : ParameterDescriptor)
    (config : ParameterConfig) : Except String ParameterConfig :=
  match config.continuous_bounds, descriptor.continuous_range with
  | some cb, some dr => do
      let clamped := clampBoundsC cb dr
      _ ← validateTransformBounds clamped config.transform
      Except.ok { config with continuous_bounds := some clamped }
  | _, _ => Except.ok config

/-- The integer half of the clamping step of
`SearchSpace::validate_and_clamp` (src/core/search_space.cpp lines
155-164): intersect a custom integer bound with the descriptor's declared
range and reject an empty intersection. -/
noncomputable def clampIntegerStep (n : String) (descriptor : ParameterDescriptor)
    (config : ParameterConfig) : Except String ParameterConfig :=
  match config.integer_bounds, descriptor.integer_range with
  | some ib, some dr =>
      let clamped := clampBoundsI ib dr
      if clamped.lower > clamped.upper then
        Except.error ("integer bounds for " ++ n ++
          " do not overlap with parameter range")
      else Except.ok { config with integer_bounds := some clamped }
  | _, _ => Except.ok config

/-- The per-entry clamping step of `SearchSpace::validate_and_clamp`
(src/core/search_space.cpp lines 139-165): only optimize-mode entries are
touched; the continuous clamp runs first, then the integer clamp. -/
noncomputable def clampConfigEntry (space : ParameterSpace) (n : String)
    (config : ParameterConfig) : Except String ParameterConfig := do
  if config.mode ≠ SearchMode.optimize then Except.ok config
  else
    match space.descriptorOf n with
    | Option.none => Except.error ("Unknown parameter: " ++ n)
    | some descriptor => do
        let config ← clampContinuousStep descriptor config
        clampIntegerStep n descriptor config

/-- The clamping loop of `SearchSpace::validate_and_clamp`: clamp every
entry in place. -/
noncomputable def clampEntries (space : ParameterSpace) :
    SearchSpace → Except String SearchSpace
  | [] => Except.ok []
  | e :: rest => do
      let c ← clampConfigEntry space e.1 e.2
      let r ← clampEntries space rest
      Except.ok ((e.1, c) :: r)

/-- `SearchSpace::validate_and_clamp` (src/core/search_space.cpp lines
136-166): validates, then clamps every optimize-mode custom bound against
the descriptor's declared range, re-validating the transform domain and
rejecting empty integer intersections. -/
noncomputable def SearchSpace.validateAndClamp (ss : SearchSpace)
    (space : ParameterSpace) : Except String SearchSpace := do
  _ ← SearchSpace.validate ss space
  clampEntries space ss

/-- `SearchSpace::get_optimization_dimension` (src/core/search_space.cpp
lines 207-225): descriptors whose resolved mode is neither fixed nor
excluded. -/
def getOptimizationDimension (ss : SearchSpace) (space : ParameterSpace) : ℕ :=
  space.countP (fun d =>
    match ss.lookup d.name with
    | some config =>
        !(config.mode = SearchMode.fixed ∨ config.mode = SearchMode.exclude)
    | Option.none => true)

/-- `hpoea::core::RunStatus` (include/hpoea/core/types.hpp). -/
inductive RunStatus
  | Success
  | BudgetExceeded
  | FailedEvaluation
  | InvalidConfiguration
  | InternalError
deriving DecidableEq

/-- `hpoea::core::Budget`: optional caps.  Wall time in milliseconds. -/
structure Budget where
  function_evaluations : Option ℕ := Option.none
  generations : Option ℕ := Option.none
  wall_time : Option ℕ := Option.none

/-- `hpoea::core::BudgetUsage`.  The measured wall time is irrelevant to
the properties proved here and is carried as a plain number. -/
structure BudgetUsage where
  function_evaluations : ℕ := 0
  generations : ℕ := 0
  wall_time : ℕ := 0

/-- `hpoea::core::OptimizationResult` (include/hpoea/core/evolution_algorithm.hpp). -/
structure OptimizationResult where
  status : RunStatus := RunStatus.InternalError
  best_fitness : ℝ := 0
  best_solution : List ℝ := []
  budget_usage : BudgetUsage := {}
  effective_parameters : ParameterSet := []
  seed : ℕ := 0
  message : String := ""

/-- `hpoea::core::HyperparameterTrialRecord`. -/
structure HyperparameterTrialRecord where
  parameters : ParameterSet
  optimization_result : OptimizationResult

/-- `std::llround`: round to nearest, halves away from zero. -/
noncomputable def llround (x : ℝ) : ℤ :=
  if x < 0 then -⌊-x + 1 / 2⌋ else ⌊x + 1 / 2⌋

/-- `std::clamp` on doubles. -/
noncomputable def clampR (v lo hi : ℝ) : ℝ :=
  if v < lo then lo else if hi < v then hi else v

/-- `std::clamp` on 64-bit integers. -/
def clampI (v lo hi : ℤ) : ℤ :=
  if v < lo then lo else if hi < v then hi else v

/-- Conversion of `unsigned long` arithmetic: reduce modulo 2 ^ 64. -/
def u64 (n : ℕ) : ℕ := n % 2 ^ 64

/-- The effective search-space entry for a descriptor inside the bridge:
`ctx.search_space ? ctx.search_space->get(name) : nullptr`. -/
def configFor (ss : Option SearchSpace) (n : String) : Option ParameterConfig :=
  ss.bind (fun s => SearchSpace.get s n)

/-- Whether `HyperTuningUdp` skips a descriptor: a search-space entry is
present and its mode is fixed or exclude
(src/wrappers/pagmo/hyper_tuning_udp.hpp lines 73-78 and 162-172). -/
def isSkipped (ss : Option SearchSpace) (d : ParameterDescriptor) : Bool :=
  match configFor ss d.name with
  | some c => decide (c.mode = SearchMode.fixed ∨ c.mode = SearchMode.exclude)
  | Option.none => false

/-- The bound pair `HyperTuningUdp::get_bounds` emits for one non-skipped
descriptor (src/wrappers/pagmo/hyper_tuning_udp.hpp lines 80-133).
The categorical branch relies on the `add_descriptor` invariant that the
choice list is non-empty. -/
noncomputable def boundsFor (config : Option ParameterConfig)
    (d : ParameterDescriptor) : Except String (ℝ × ℝ) :=
  match d.type with
  | ParameterType.Continuous =>
      let base := d.continuous_range.getD ⟨-1, 1⟩
      let range := match config with
        | some c => c.continuous_bounds.getD base
        | Option.none => base
      let t := match config with
        | some c => c.transform
        | Option.none => Transform.none
      do
        let tb ← transformBounds range t
        Except.ok (tb.lower, tb.upper)
  | ParameterType.Integer =>
      match config with
      | some c =>
          if c.discrete_choices.isEmpty then
            let range := (c.integer_bounds.getD (d.integer_range.getD ⟨-100, 100⟩))
            Except.ok ((range.lower : ℝ), (range.upper : ℝ))
          else
            Except.ok (0, ((c.discrete_choices.length - 1 : ℕ) : ℝ))
      | Option.none =>
          let range := d.integer_range.getD ⟨-100, 100⟩
          Except.ok ((range.lower : ℝ), (range.upper : ℝ))
  | ParameterType.Boolean => Except.ok (0, 1)
  | ParameterType.Categorical =>
      match config with
      | some c =>
          if c.discrete_choices.isEmpty then
            Except.ok (0, ((d.categorical_choices.length - 1 : ℕ) : ℝ))
          else
            Except.ok (0, ((c.discrete_choices.length - 1 : ℕ) : ℝ))
      | Option.none => Except.ok (0, ((d.categorical_choices.length - 1 : ℕ) : ℝ))

/-- The descriptor loop of `HyperTuningUdp::get_bounds`. -/
noncomputable def getBoundsLoop (ss : Option SearchSpace) :
    List ParameterDescriptor → Except String (List (ℝ × ℝ))
  | [] => Except.ok []
  | d :: rest =>
      if isSkipped ss d then getBoundsLoop ss rest
      else do
        let b ← boundsFor (configFor ss d.name) d
        let r ← getBoundsLoop ss rest
        Except.ok (b :: r)

/-- `HyperTuningUdp::get_bounds` (src/wrappers/pagmo/hyper_tuning_udp.hpp
lines 51-143): fails on an empty parameter space, emits one pair per
non-skipped descriptor in declaration order, fails if none remain. -/
noncomputable def getBounds (space : ParameterSpace) (ss : Option SearchSpace) :
    Except String (List (ℝ × ℝ)) :=
  match space with
  | [] => Except.error "Algorithm parameter space is empty"
  | _ => do
      let pairs ← getBoundsLoop ss space
      match pairs with
      | [] => Except.error "All parameters are fixed or excluded"
      | _ => Except.ok pairs

/-- Decoding of one consumed candidate slot in `HyperTuningUdp::fitness`
(src/wrappers/pagmo/hyper_tuning_udp.hpp lines 176-239). -/
noncomputable def decodeValue (config : Option ParameterConfig)
    (d : ParameterDescriptor) (value : ℝ) : Except String ParameterValue :=
  match d.type with
  | ParameterType.Continuous =>
      let base := d.continuous_range.getD ⟨-(10 ^ 10 : ℝ), (10 ^ 10 : ℝ)⟩
      let range := match config with
        | some c => c.continuous_bounds.getD base
        | Option.none => base
      let t := match config with
        | some c => c.transform
        | Option.none => Transform.none
      Except.ok (ParameterValue.real (clampR (applyTransform value t) range.lower range.upper))
  | ParameterType.Integer =>
      match config with
      | some c =>
          if c.discrete_choices.isEmpty then
            let range := c.integer_bounds.getD (d.integer_range.getD ⟨-100, 100⟩)
            Except.ok (ParameterValue.int (clampI (llround value) range.lower range.upper))
          else
            let idx := clampI (llround value) 0 ((c.discrete_choices.length : ℤ) - 1)
            Except.ok (c.discrete_choices.getD idx.toNat (ParameterValue.int 0))
      | Option.none =>
          let range := d.integer_range.getD ⟨-100, 100⟩
          Except.ok (ParameterValue.int (clampI (llround value) range.lower range.upper))
  | ParameterType.Boolean =>
      Except.ok (ParameterValue.bool (if 1 / 2 < value then true else false))
  | ParameterType.Categorical =>
      match config with
      | some c =>
          if c.discrete_choices.isEmpty then
            match d.categorical_choices with
            | [] => Except.error ("Categorical descriptor without choices: " ++ d.name)
            | choices =>
                let idx := clampI (llround value) 0 ((choices.length : ℤ) - 1)
                Except.ok (ParameterValue.str (choices.getD idx.toNat ""))
          else
            let idx := clampI (llround value) 0 ((c.discrete_choices.length : ℤ) - 1)
            Except.ok (c.discrete_choices.getD idx.toNat (ParameterValue.int 0))
      | Option.none =>
          match d.categorical_choices with
          | [] => Except.error ("Categorical descriptor without choices: " ++ d.name)
          | choices =>
              let idx := clampI (llround value) 0 ((choices.length : ℤ) - 1)
              Except.ok (ParameterValue.str (choices.getD idx.toNat ""))

/-- The descriptor walk of `HyperTuningUdp::fitness` (src/wrappers/pagmo/
hyper_tuning_udp.hpp lines 156-240): fixed entries inject their pinned
value without consuming a candidate slot, excluded entries are omitted,
all other descriptors consume exactly one slot.  Returns the assembled
set together with the unconsumed tail of the candidate vector. -/
noncomputable def decodeParams (ss : Option SearchSpace) :
    List ParameterDescriptor → List ℝ → Except String (ParameterSet × List ℝ)
  | [], candidate => Except.ok ([], candidate)
  | d :: rest, candidate =>
      match configFor ss d.name with
      | some c =>
          match c.mode with
          | SearchMode.fixed =>
              (match c.fixed_value with
               | some v =>
                   (fun p => ((d.name, v) :: p.1, p.2)) <$> decodeParams ss rest candidate
               | Option.none => decodeParams ss rest candidate)
          | SearchMode.exclude => decodeParams ss rest candidate
          | SearchMode.optimize =>
              match candidate with
              | [] => Except.error "candidate vector exhausted"
              | x :: crest => do
                  let v ← decodeValue (some c) d x
                  (fun p => ((d.name, v) :: p.1, p.2)) <$> decodeParams ss rest crest
      | Option.none =>
          match candidate with
          | [] => Except.error "candidate vector exhausted"
          | x :: crest => do
              let v ← decodeValue Option.none d x
              (fun p => ((d.name, v) :: p.1, p.2)) <$> decodeParams ss rest crest

/-- The best-trial compare-and-swap of `HyperTuningUdp::fitness`
(src/wrappers/pagmo/hyper_tuning_udp.hpp lines 264-270): replace only on
a strictly smaller `best_fitness`. -/
noncomputable def updateBest (best : Option HyperparameterTrialRecord)
    (record : HyperparameterTrialRecord) : Option HyperparameterTrialRecord :=
  match best with
  | Option.none => some record
  | some b =>
      if record.optimization_result.best_fitness <
          b.optimization_result.best_fitness then some record
      else some b

/-- The call-scoped data of `HyperTuningUdp::Context`: the target's
parameter space, the optional search space, the inner budget and the base
seed.  The factory/configure/run pipeline is abstracted as a function from
the configured set, the budget and the seed to the inner result. -/
structure BridgeContext where
  space : ParameterSpace
  search_space : Option SearchSpace
  algorithm_budget : Budget
  base_seed : ℕ
  runAlgorithm : ParameterSet → Budget → ℕ → OptimizationResult

/-- The guarded mutable tail of `HyperTuningUdp::Context`. -/
structure BridgeState where
  evaluations : ℕ := 0
  trials : List HyperparameterTrialRecord := []
  best_trial : Option HyperparameterTrialRecord := Option.none

/-- One `HyperTuningUdp::fitness` call (src/wrappers/pagmo/
hyper_tuning_udp.hpp lines 145-274): decode the candidate, complete it via
`apply_defaults`, derive `eval_seed = base_seed + evaluations++` in 64-bit
arithmetic, run the inner algorithm, append the trial and update the best
trial.  Returns the scalar objective and the new state. -/
noncomputable def fitness (ctx : BridgeContext) (candidate : List ℝ)
    (st : BridgeState) : Except String (ℝ × BridgeState) := do
  let decoded ← decodeParams ctx.search_space ctx.space candidate
  let parameters ← applyDefaults ctx.space decoded.1
  let evalSeed := u64 (ctx.base_seed + u64 st.evaluations)
  let result := ctx.runAlgorithm parameters ctx.algorithm_budget evalSeed
  let record : HyperparameterTrialRecord := ⟨parameters, result⟩
  Except.ok (result.best_fitness,
    { evaluations := st.evaluations + 1,
      trials := st.trials ++ [record],
      best_trial := updateBest st.best_trial record })

/-- A single-threaded sequence of `fitness` calls on one shared context. -/
noncomputable def runFitnessSeq (ctx : BridgeContext) :
    List (List ℝ) → BridgeState → Except String (List ℝ × BridgeState)
  | [], st => Except.ok ([], st)
  | cand :: rest, st => do
      let r ← fitness ctx cand st
      let q ← runFitnessSeq ctx rest r.2
      Except.ok (r.1 :: q.1, q.2)

/-- `std::min_element` over the trial ledger with the strict fitness
comparator, as in the fallback of `fill_hyper_result`
(src/wrappers/pagmo/hyper_util.hpp lines 57-61): first minimum wins. -/
noncomputable def minElementTrial : List HyperparameterTrialRecord →
    Option HyperparameterTrialRecord
  | [] => Option.none
  | t :: rest =>
      some (rest.foldl
        (fun a b =>
          if b.optimization_result.best_fitness <
              a.optimization_result.best_fitness then b else a) t)

/-- The best-parameters / best-objective selection of `fill_hyper_result`
(src/wrappers/pagmo/hyper_util.hpp lines 53-67): use the tracked best
trial when present, else the first minimum of the ledger, else the
population champion fallback with empty parameters. -/
noncomputable def fillHyperBest (best_trial : Option HyperparameterTrialRecord)
    (trials : List HyperparameterTrialRecord) (championFallback : ℝ) :
    ParameterSet × ℝ :=
  match best_trial with
  | some best => (best.parameters, best.optimization_result.best_fitness)
  | Option.none =>
      match minElementTrial trials with
      | some m => (m.parameters, m.optimization_result.best_fitness)
      | Option.none => ([], championFallback)

/-- `determine_generations` (src/wrappers/pagmo/de_algorithm.cpp lines
95-110): clamp the configured generation count by the generation cap,
then by `function_evaluations / population` when that quotient is
positive, and finally force at least one generation. -/
def determineGenerations (g : ℕ) (budget : Budget) (population : ℕ) : ℕ :=
  let g1 := match budget.generations with
    | some bg => min g bg
    | Option.none => g
  let g2 := match budget.function_evaluations with
    | some fe =>
        let maxGenerations := fe / max population 1
        if 0 < maxGenerations then min g1 maxGenerations else g1
    | Option.none => g1
  max g2 1

/-- The budget usage reported by a successful
`PagmoDifferentialEvolution::run` (src/wrappers/pagmo/de_algorithm.cpp
lines 160-165): `population_size * generations` evaluations and
`generations` generations. -/
def deRunBudgetUsage (g : ℕ) (budget : Budget) (population : ℕ) : BudgetUsage :=
  let generations := determineGenerations g budget population
  { function_evaluations := population * generations,
    generations := generations,
    wall_time := 0 }

/-- `get_int_param` (src/wrappers/pagmo/budget_util.hpp lines 14-27). -/
noncomputable def getIntParam (params : ParameterSet) (n : String) :
    Except String ℕ :=
  match params.lookup n with
  | Option.none => Except.error ("missing parameter: " ++ n)
  | some (ParameterValue.int v) =>
      if v < 0 then Except.error ("parameter " ++ n ++ " cannot be negative")
      else Except.ok v.toNat
  | some _ => Except.error ("parameter " ++ n ++ " must be integer")

/-- `compute_generations` (src/wrappers/pagmo/budget_util.hpp lines
51-72). -/
noncomputable def computeGenerations (params : ParameterSet) (budget : Budget)
    (population : ℕ) : Except String ℕ := do
  if population = 0 then Except.error "population_size cannot be zero"
  else do
    let gens ← getIntParam params "generations"
    if gens = 0 then Except.error "generations must be positive"
    else
      let g1 := match budget.generations with
        | some bg => min gens bg
        | Option.none => gens
      let g2 := match budget.function_evaluations with
        | some fe => min g1 (max (fe / population) 1)
        | Option.none => g1
      Except.ok g2

/-- `hpoea::core::HyperparameterOptimizationResult`
(include/hpoea/core/hyperparameter_optimizer.hpp). -/
structure HyperparameterOptimizationResult where
  status : RunStatus := RunStatus.InternalError
  best_parameters : ParameterSet := []
  best_objective : ℝ := 0
  trials : List HyperparameterTrialRecord := []
  budget_usage : BudgetUsage := {}
  seed : ℕ := 0
  effective_optimizer_parameters : ParameterSet := []
  message : String := ""

/-- The trial loop of `SequentialExperimentManager::run_experiment`
(src/core/experiment.cpp lines 43-69): one optimizer call per trial with
the trial's drawn seed, results appended in call order.  The configured
optimizer is abstracted as a function of the seed, the internal RNG as
the stream of its draws. -/
noncomputable def seqExperimentLoop
    (optimize : ℕ → HyperparameterOptimizationResult) (seeds : ℕ → ℕ) :
    ℕ → ℕ → List HyperparameterOptimizationResult →
    List HyperparameterOptimizationResult
  | _, 0, acc => acc
  | trial, remaining + 1, acc =>
      seqExperimentLoop optimize seeds (trial + 1) remaining
        (acc ++ [optimize (seeds trial)])

/-- `SequentialExperimentManager::run_experiment` (src/core/experiment.cpp
lines 19-74), reduced to the result list: rejects zero trials, then runs
the loop. -/
noncomputable def runExperimentSequential (trials_per_optimizer : ℕ)
    (optimize : ℕ → HyperparameterOptimizationResult) (seeds : ℕ → ℕ) :
    Except String (List HyperparameterOptimizationResult) :=
  if trials_per_optimizer = 0 then
    Except.error "trials_per_optimizer must be greater than zero"
  else Except.ok (seqExperimentLoop optimize seeds 0 trials_per_optimizer [])

/-- The contiguous slice of trial indices worker `i` owns in
`ParallelExperimentManager::run_experiment` (src/core/experiment.cpp lines
126-127): `[i*k, min((i+1)*k, N))` with `k = ceil(N / num_islands)`. -/
def islandTrials (k n i : ℕ) : List ℕ :=
  List.range' (i * k) (min ((i + 1) * k) n - i * k)

/-- The writes worker `i` performs into the pre-sized results array:
slot `t` receives the optimizer result for trial `t`
(src/core/experiment.cpp lines 129-136). -/
noncomputable def workerWrites (optimize : ℕ → HyperparameterOptimizationResult)
    (seeds : ℕ → ℕ) (k n i : ℕ) : List (ℕ × HyperparameterOptimizationResult) :=
  (islandTrials k n i).map (fun t => (t, optimize (seeds t)))

/-- All workers' writes, worker by worker. -/
noncomputable def allWorkerWrites (optimize : ℕ → HyperparameterOptimizationResult)
    (seeds : ℕ → ℕ) (numIslands k n : ℕ) :
    List (ℕ × HyperparameterOptimizationResult) :=
  ((List.range numIslands).map (workerWrites optimize seeds k n)).flatten

/-- Indexed stores into the pre-sized results array, in the order the
writes happen to complete. -/
def applyWrites {α : Type} (ws : List (ℕ × α)) (arr : List (Option α)) :
    List (Option α) :=
  ws.foldl (fun a w => a.set w.1 (some w.2)) arr

/-- `ParallelExperimentManager::run_experiment` (src/core/experiment.cpp
lines 83-170), reduced to the results array: rejects zero trials or zero
islands; `schedule` is the order in which the workers' disjoint writes
reach the pre-sized array, an arbitrary interleaving of the per-worker
write lists. -/
noncomputable def runExperimentParallel (trials_per_optimizer islands : ℕ)
    (schedule : List (ℕ × HyperparameterOptimizationResult)) :
    Except String (List (Option HyperparameterOptimizationResult)) :=
  if trials_per_optimizer = 0 then
    Except.error "trials_per_optimizer must be greater than zero"
  else if islands = 0 then
    Except.error "islands must be greater than zero"
  else
    Except.ok (applyWrites schedule (List.replicate trials_per_optimizer Option.none))

/-- A tiny concrete bridge context used to exercise the seed contract: one
boolean hyperparameter, base seed 5, and an inner algorithm that records
the seed it was given. -/
noncomputable def seedDemoCtx : BridgeContext :=
  { space := [{ name := "flag", type := ParameterType.Boolean }],
    search_space := Option.none,
    algorithm_budget := {},
    base_seed := 5,
    runAlgorithm := fun _ _ s => { seed := s } }

/-- The bridge state after the two demo evaluations. -/
noncomputable def seedDemoFinal : BridgeState :=
  { evaluations := 2,
    trials := [⟨[("flag", ParameterValue.bool true)], { seed := 5 }⟩,
               ⟨[("flag", ParameterValue.bool false)], { seed := 6 }⟩],
    best_trial := some ⟨[("flag", ParameterValue.bool true)], { seed := 5 }⟩ }

/-- Shorthand for the inner `best_fitness` of a recorded trial. -/
noncomputable def trialFitness (t : HyperparameterTrialRecord) : ℝ :=
  t.optimization_result.best_fitness

/-- A concrete bridge context whose inner algorithm scores the first
evaluation 2 and every later one 1, producing a tie on the minimum. -/
noncomputable def bestDemoCtx : BridgeContext :=
  { space := [{ name := "flag", type := ParameterType.Boolean }],
    search_space := Option.none,
    algorithm_budget := {},
    base_seed := 5,
    runAlgorithm := fun _ _ s =>
      { best_fitness := if s = 5 then 2 else 1, seed := s } }

/-- The bridge state after the three demo evaluations: fitness values
2, 1, 1 — the second trial is the first minimum and stays the best. -/
noncomputable def bestDemoFinal : BridgeState :=
  { evaluations := 3,
    trials := [⟨[("flag", ParameterValue.bool true)], { best_fitness := 2, seed := 5 }⟩,
               ⟨[("flag", ParameterValue.bool false)], { best_fitness := 1, seed := 6 }⟩,
               ⟨[("flag", ParameterValue.bool true)], { best_fitness := 1, seed := 7 }⟩],
    best_trial := some ⟨[("flag", ParameterValue.bool false)], { best_fitness := 1, seed := 6 }⟩ }

/-- The two-descriptor space of the spec's example:
`x : Continuous [0,1] default 0.5` and `n : Integer [1,10] default 5`. -/
noncomputable def demoSpace : ParameterSpace :=
  [ { name := "x", type := ParameterType.Continuous,
      continuous_range := some ⟨0, 1⟩,
      default_value := some (ParameterValue.real (1 / 2)) },
    { name := "n", type := ParameterType.Integer,
      integer_range := some ⟨1, 10⟩,
      default_value := some (ParameterValue.int 5) } ]

/-- A two-descriptor space for the fixed-parameter scenario:
`n : Integer [1,10] default 5` and `x : Continuous [0,1] default 0.5`. -/
noncomputable def fixedDemoSpace : ParameterSpace :=
  [ { name := "n", type := ParameterType.Integer,
      integer_range := some ⟨1, 10⟩,
      default_value := some (ParameterValue.int 5) },
    { name := "x", type := ParameterType.Continuous,
      continuous_range := some ⟨0, 1⟩,
      default_value := some (ParameterValue.real (1 / 2)) } ]

/-- A search space fixing `n` to the pinned value 3. -/
noncomputable def fixedDemoSearch : SearchSpace :=
  [("n", { mode := SearchMode.fixed, fixed_value := some (ParameterValue.int 3) })]

/-! Reduction lemmas for the `Except` monad, used to evaluate the
embedded operations on concrete inputs. -/

@[simp] theorem except_bind_ok {ε α β : Type} (a : α) (f : α → Except ε β) :
    (Except.ok a : Except ε α) >>= f = f a := rfl

@[simp] theorem except_bind_err {ε α β : Type} (e : ε) (f : α → Except ε β) :
    (Except.error e : Except ε α) >>= f = Except.error e := rfl

@[simp] theorem except_map_ok {ε α β : Type} (g : α → β) (a : α) :
    (g <$> (Except.ok a : Except ε α)) = Except.ok (g a) := rfl

@[simp] theorem except_map_err {ε α β : Type} (g : α → β) (e : ε) :
    (g <$> (Except.error e : Except ε α)) = Except.error e := rfl

@[simp] theorem except_pure_eq_ok {ε α : Type} (a : α) :
    (pure a : Except ε α) = Except.ok a := rfl

theorem except_ok_of_bind_ok {ε α β : Type} {m : Except ε α} {f : α → Except ε β}
    {b : β} (h : m >>= f = Except.ok b) : ∃ a, m = Except.ok a ∧ f a = Except.ok b := by
  cases m with
  | ok a => exact ⟨a, rfl, h⟩
  | error e => exact absurd h (by simp)

/-! String comparisons on the concrete keys used by the witnesses, so
that the evaluation proofs can reduce lookups. -/

@[simp] theorem beq_n_n : (("n" : String) == "n") = true := rfl

@[simp] theorem beq_x_n : (("x" : String) == "n") = false := rfl

@[simp] theorem beq_x_x : (("x" : String) == "x") = true := rfl

@[simp] theorem beq_n_x : (("n" : String) == "x") = false := rfl

@[simp] theorem deq_n_x : (decide (("n" : String) = "x")) = false := rfl

@[simp] theorem deq_x_n : (decide (("x" : String) = "n")) = false := rfl

@[simp] theorem deq_x_x : (decide (("x" : String) = "x")) = true := rfl

@[simp] theorem deq_n_n : (decide (("n" : String) = "n")) = true := rfl

/-! ### C1: inner-run budget caps -/

/-- Claim C1 as stated is false on the code: a completed DE run with a
`function_evaluations` cap of 10 and a population of 50 reports
`budget_usage.function_evaluations = 5000`, far above the cap, because
`determine_generations` ignores an evaluation cap smaller than the
population (the quotient `10 / 50` is zero and the clamp is skipped). -/
theorem de_budget_cap_counterexample :
    10 < (deRunBudgetUsage 100 { function_evaluations := some 10 } 50).function_evaluations := by
  decide

/-- C1 (amended): for runs whose reported usage is
`population_size * effective_generations` with `effective_generations`
from `determine_generations` (the DE wrapper), the generations cap is
never exceeded whenever it is set to a positive value, and the
function-evaluations cap is never exceeded whenever it is set to at least
the population size; a generation count obtained from
`compute_generations` satisfies a set generations cap unconditionally,
and `population * generations` stays within an evaluations cap that is
at least the population size. -/
theorem de_budget_caps_hold (g population : ℕ) (budget : Budget)
    (params : ParameterSet) :
    (∀ bg, budget.generations = some bg → 1 ≤ bg →
      (deRunBudgetUsage g budget population).generations ≤ bg) ∧
    (∀ fe, budget.function_evaluations = some fe → 1 ≤ population →
      population ≤ fe →
      (deRunBudgetUsage g budget population).function_evaluations ≤ fe) ∧
    (∀ gens bg, computeGenerations params budget population = Except.ok gens →
      budget.generations = some bg → gens ≤ bg) ∧
    (∀ gens fe, computeGenerations params budget population = Except.ok gens →
      budget.function_evaluations = some fe → population ≤ fe →
      population * gens ≤ fe) := by
  refine ⟨?_, ?_, ?_, ?_⟩
  · intro bg hbg h1
    simp only [deRunBudgetUsage, determineGenerations, hbg]
    cases hfe : budget.function_evaluations with
    | none => simp; omega
    | some fe =>
        simp only []
        split
        · have : min (min g bg) (fe / max population 1) ≤ bg :=
            le_trans (min_le_left _ _) (min_le_right _ _)
          omega
        · simp; omega
  · intro fe hfe h1 hpf
    simp only [deRunBudgetUsage, determineGenerations, hfe]
    have hmx : max population 1 = population := Nat.max_eq_left h1
    have hquot : 1 ≤ fe / population := (Nat.one_le_div_iff (by omega)).2 hpf
    have hdm : population * (fe / population) ≤ fe := Nat.mul_div_le fe population
    cases hbg : budget.generations with
    | none =>
        simp only [hmx]
        rw [if_pos (by omega)]
        have : max (min g (fe / population)) 1 ≤ fe / population := by
          have := min_le_right g (fe / population)
          omega
        calc population * max (min g (fe / population)) 1
            ≤ population * (fe / population) := Nat.mul_le_mul_left _ this
          _ ≤ fe := hdm
    | some bg =>
        simp only [hmx]
        rw [if_pos (by omega)]
        have : max (min (min g bg) (fe / population)) 1 ≤ fe / population := by
          have := min_le_right (min g bg) (fe / population)
          omega
        calc population * max (min (min g bg) (fe / population)) 1
            ≤ population * (fe / population) := Nat.mul_le_mul_left _ this
          _ ≤ fe := hdm
  · intro gens bg hok hbg
    revert hok
    simp only [computeGenerations, hbg]
    split
    · intro h; exact absurd h (by simp)
    · cases hg : getIntParam params "generations" with
      | error e => intro h; exact absurd h (by simp)
      | ok g0 =>
          simp only [except_bind_ok]
          split
          · intro h; exact absurd h (by simp)
          · cases hfe : budget.function_evaluations with
            | none =>
                intro h
                have : gens = min g0 bg := by
                  simpa using h.symm
                subst this
                exact min_le_right _ _
            | some fe =>
                intro h
                have : gens = min (min g0 bg) (max (fe / population) 1) := by
                  simpa using h.symm
                subst this
                exact le_trans (min_le_left _ _) (min_le_right _ _)
  · intro gens fe hok hfe hpf
    revert hok
    simp only [computeGenerations, hfe]
    split
    · intro h; exact absurd h (by simp)
    · rename_i hpop
      cases hg : getIntParam params "generations" with
      | error e => intro h; exact absurd h (by simp)
      | ok g0 =>
          simp only [except_bind_ok]
          split
          · intro h; exact absurd h (by simp)
          · intro h
            have hquot : 1 ≤ fe / population :=
              (Nat.one_le_div_iff (by omega)).2 hpf
            have hgle : gens ≤ fe / population := by
              cases hbg : budget.generations with
              | none =>
                  rw [hbg] at h
                  have : gens = min g0 (max (fe / population) 1) := by
                    simpa using h.symm
                  subst this
                  have := min_le_right g0 (max (fe / population) 1)
                  omega
              | some bg =>
                  rw [hbg] at h
                  have : gens = min (min g0 bg) (max (fe / population) 1) := by
                    simpa using h.symm
                  subst this
                  have := min_le_right (min g0 bg) (max (fe / population) 1)
                  omega
            calc population * gens ≤ population * (fe / population) :=
                  Nat.mul_le_mul_left _ hgle
              _ ≤ fe := Nat.mul_div_le fe population

/-- Witness for the amended C1 at a concrete budget: population 30,
generation cap 50, evaluation cap 600, configured 100 generations. -/
theorem de_budget_caps_hold_witness :
    (deRunBudgetUsage 100 { generations := some 50, function_evaluations := some 600 } 30).generations ≤ 50 ∧
    (deRunBudgetUsage 100 { generations := some 50, function_evaluations := some 600 } 30).function_evaluations ≤ 600 ∧
    computeGenerations [("generations", ParameterValue.int 100)]
      { generations := some 50, function_evaluations := some 600 } 30 = Except.ok 20 ∧
    30 * 20 ≤ 600 :=
  ⟨(de_budget_caps_hold 100 30
      { generations := some 50, function_evaluations := some 600 } []).1 50 rfl (by decide),
   (de_budget_caps_hold 100 30
      { generations := some 50, function_evaluations := some 600 } []).2.1 600 rfl
      (by decide) (by decide),
   by norm_num [computeGenerations, getIntParam, List.lookup],
   (de_budget_caps_hold 100 30
      { generations := some 50, function_evaluations := some 600 }
      [("generations", ParameterValue.int 100)]).2.2.2 20 600
      (by norm_num [computeGenerations, getIntParam, List.lookup]) rfl (by decide)⟩

/-! ### C3: sequential seed derivation -/

/-- A successful `fitness` call increments the evaluation counter by one,
appends exactly one trial whose inner run received
`eval_seed = (base_seed + evaluations) mod 2^64`, and updates the best
trial through the strict compare-and-swap. -/
theorem fitness_ok_state {ctx : BridgeContext} {cand : List ℝ} {st : BridgeState}
    {f : ℝ} {st1 : BridgeState} (h : fitness ctx cand st = Except.ok (f, st1)) :
    ∃ ps : ParameterSet,
      f = (ctx.runAlgorithm ps ctx.algorithm_budget
            (u64 (ctx.base_seed + u64 st.evaluations))).best_fitness ∧
      st1.evaluations = st.evaluations + 1 ∧
      st1.trials = st.trials ++
        [⟨ps, ctx.runAlgorithm ps ctx.algorithm_budget
              (u64 (ctx.base_seed + u64 st.evaluations))⟩] ∧
      st1.best_trial = updateBest st.best_trial
        ⟨ps, ctx.runAlgorithm ps ctx.algorithm_budget
              (u64 (ctx.base_seed + u64 st.evaluations))⟩ := by
  cases hd : decodeParams ctx.search_space ctx.space cand with
  | error e => rw [fitness] at h; rw [hd] at h; simp at h
  | ok dec =>
      cases ha : applyDefaults ctx.space dec.1 with
      | error e =>
          rw [fitness] at h; rw [hd] at h
          simp only [except_bind_ok] at h
          rw [ha] at h; simp at h
      | ok ps =>
          rw [fitness] at h; rw [hd] at h
          simp only [except_bind_ok] at h
          rw [ha] at h
          simp only [except_bind_ok, Except.ok.injEq, Prod.mk.injEq] at h
          exact ⟨ps, h.1.symm, by rw [← h.2], by rw [← h.2], by rw [← h.2]⟩

/-- Along a successful single-threaded sequence of `fitness` calls the
counter advances by one per call and the per-trial seeds are consecutive
64-bit values starting at `base_seed + initial counter`. -/
theorem runFitnessSeq_trials_seeds (ctx : BridgeContext)
    (hseed : ∀ p b s, (ctx.runAlgorithm p b s).seed = s)
    (cands : List (List ℝ)) (st : BridgeState) (fits : List ℝ) (stf : BridgeState)
    (h : runFitnessSeq ctx cands st = Except.ok (fits, stf)) :
    stf.evaluations = st.evaluations + cands.length ∧
    stf.trials.map (fun t => t.optimization_result.seed) =
      st.trials.map (fun t => t.optimization_result.seed) ++
        (List.range cands.length).map
          (fun i => u64 (ctx.base_seed + u64 (st.evaluations + i))) := by
  induction cands generalizing st fits stf with
  | nil =>
      rw [runFitnessSeq] at h
      simp only [Except.ok.injEq, Prod.mk.injEq] at h
      rw [← h.2]
      simp
  | cons cand rest ih =>
      rw [runFitnessSeq] at h
      cases hf : fitness ctx cand st with
      | error e => rw [hf] at h; simp at h
      | ok r =>
          rw [hf] at h
          simp only [except_bind_ok] at h
          cases hr : runFitnessSeq ctx rest r.2 with
          | error e => rw [hr] at h; simp at h
          | ok q =>
              rw [hr] at h
              simp only [except_bind_ok, Except.ok.injEq, Prod.mk.injEq] at h
              obtain ⟨ps, -, hev, htr, -⟩ := fitness_ok_state
                (by rw [hf] : fitness ctx cand st = Except.ok (r.1, r.2))
              obtain ⟨ihev, ihtr⟩ := ih r.2 q.1 q.2 (by rw [hr])
              constructor
              · rw [← h.2, ihev, hev, List.length_cons]
                omega
              · rw [← h.2, ihtr, htr]
                simp only [List.map_append, List.map_cons, List.map_nil, hseed, hev]
                rw [List.append_assoc]
                congr 1
                simp only [List.length_cons]
                rw [List.range_succ_eq_map]
                simp only [List.map_cons, List.map_map, List.singleton_append]
                congr 1
                apply List.map_congr_left
                intro i _
                simp only [Function.comp_apply]
                have harg : st.evaluations + 1 + i = st.evaluations + i.succ := by omega
                rw [harg]

/-- C3: on one bridge context, a single-threaded sequence of `fitness`
evaluations with base seed `s` runs the inner algorithm of the `i`-th
evaluation (0-based, evaluation order) with seed exactly `s + i`, provided
the 64-bit counter arithmetic does not wrap; hence two such runs with the
same base seed, algorithm, problem and budget see the identical seed
sequence `s, s+1, s+2, …`. -/
theorem bridge_sequential_seeds (ctx : BridgeContext) (cands : List (List ℝ))
    (fits : List ℝ) (stf : BridgeState)
    (hseed : ∀ p b s, (ctx.runAlgorithm p b s).seed = s)
    (hrun : runFitnessSeq ctx cands {} = Except.ok (fits, stf))
    (hfit : ctx.base_seed + cands.length ≤ 2 ^ 64) :
    stf.trials.map (fun t => t.optimization_result.seed) =
      (List.range cands.length).map (fun i => ctx.base_seed + i) := by
  obtain ⟨-, hmap⟩ := runFitnessSeq_trials_seeds ctx hseed cands {} fits stf hrun
  rw [hmap]
  simp only [List.map_nil, List.nil_append]
  apply List.map_congr_left
  intro i hi
  rw [List.mem_range] at hi
  have h1 : i < 2 ^ 64 := by omega
  have h2 : ctx.base_seed + i < 2 ^ 64 := by omega
  simp only [u64, Nat.zero_add]
  rw [Nat.mod_eq_of_lt h1, Nat.mod_eq_of_lt h2]

/-- Witness for C3: two evaluations on the demo context with base seed 5
record inner seeds `[5, 6]`. -/
theorem bridge_sequential_seeds_witness :
    runFitnessSeq seedDemoCtx [[1], [0]] {} = Except.ok ([0, 0], seedDemoFinal) ∧
    seedDemoFinal.trials.map (fun t => t.optimization_result.seed) =
      (List.range 2).map (fun i => seedDemoCtx.base_seed + i) :=
  ⟨by norm_num [runFitnessSeq, fitness, decodeParams, decodeValue, applyDefaults,
      validateOverrides, addDefaults, validateValue, ParameterSpace.descriptorOf,
      List.find?, List.lookup, configFor, SearchSpace.get, u64, updateBest,
      seedDemoCtx, seedDemoFinal],
   bridge_sequential_seeds seedDemoCtx [[1], [0]] [0, 0] seedDemoFinal
      (fun _ _ _ => rfl)
      (by norm_num [runFitnessSeq, fitness, decodeParams, decodeValue, applyDefaults,
        validateOverrides, addDefaults, validateValue, ParameterSpace.descriptorOf,
        List.find?, List.lookup, configFor, SearchSpace.get, u64, updateBest,
        seedDemoCtx, seedDemoFinal])
      (by norm_num [seedDemoCtx])⟩

/-! ### C2: best-trial tracking and result selection -/

/-- The compare-and-swap replaces the best trial on a strictly smaller
fitness. -/
theorem updateBest_lt {b r : HyperparameterTrialRecord}
    (h : trialFitness r < trialFitness b) : updateBest (some b) r = some r := by
  simp [updateBest, trialFitness] at h ⊢
  intro hnot
  exact absurd h (by simpa using hnot)

/-- The compare-and-swap keeps the current best on an equal or larger
fitness: a later trial with equal fitness never replaces the first-seen
one. -/
theorem updateBest_not_lt {b r : HyperparameterTrialRecord}
    (h : ¬ trialFitness r < trialFitness b) : updateBest (some b) r = some b := by
  simp [updateBest, trialFitness] at h ⊢
  intro hlt
  exact absurd hlt (by simpa using h)

/-- Folding the compare-and-swap over a ledger yields the first trial
achieving the minimal fitness: it is below every trial, and strictly
below every trial preceding it. -/
theorem foldl_updateBest_spec (l : List HyperparameterTrialRecord)
    (b : HyperparameterTrialRecord) :
    ∃ t pre post,
      l.foldl updateBest (some b) = some t ∧
      b :: l = pre ++ t :: post ∧
      (∀ u ∈ b :: l, trialFitness t ≤ trialFitness u) ∧
      (∀ u ∈ pre, trialFitness t < trialFitness u) := by
  induction l generalizing b with
  | nil =>
      refine ⟨b, [], [], rfl, rfl, ?_, by simp⟩
      intro u hu
      rw [List.mem_singleton] at hu
      exact le_of_eq (by rw [hu])
  | cons r rest ih =>
      by_cases hlt : trialFitness r < trialFitness b
      · obtain ⟨t, pre, post, hfold, hdec, hmin, hstrict⟩ := ih r
        have htr : trialFitness t ≤ trialFitness r := hmin r (List.mem_cons_self r rest)
        have htb : trialFitness t < trialFitness b := lt_of_le_of_lt htr hlt
        refine ⟨t, b :: pre, post, ?_, ?_, ?_, ?_⟩
        · rw [List.foldl_cons, updateBest_lt hlt, hfold]
        · rw [List.cons_append, ← hdec]
        · intro u hu
          rcases List.mem_cons.1 hu with hu | hu
          · rw [hu]; exact le_of_lt htb
          · exact hmin u hu
        · intro u hu
          rcases List.mem_cons.1 hu with hu | hu
          · rw [hu]; exact htb
          · exact hstrict u hu
      · obtain ⟨t, pre, post, hfold, hdec, hmin, hstrict⟩ := ih b
        have hble : trialFitness b ≤ trialFitness r := not_lt.1 hlt
        cases pre with
        | nil =>
            rw [List.nil_append, List.cons.injEq] at hdec
            refine ⟨t, [], r :: post, ?_, ?_, ?_, by simp⟩
            · rw [List.foldl_cons, updateBest_not_lt hlt, hfold]
            · rw [List.nil_append, List.cons.injEq]
              exact ⟨hdec.1, by rw [List.cons.injEq]; exact ⟨rfl, hdec.2⟩⟩
            · intro u hu
              rcases List.mem_cons.1 hu with hu | hu
              · rw [hu]; exact hmin b (List.mem_cons_self b rest)
              · rcases List.mem_cons.1 hu with hu | hu
                · rw [hu]
                  exact le_trans (hmin b (List.mem_cons_self b rest)) hble
                · exact hmin u (List.mem_cons_of_mem b hu)
        | cons p pre2 =>
            rw [List.cons_append, List.cons.injEq] at hdec
            have hpb : trialFitness t < trialFitness b := by
              have := hstrict p (List.mem_cons_self p pre2)
              rw [← hdec.1] at this
              exact this
            refine ⟨t, b :: r :: pre2, post, ?_, ?_, ?_, ?_⟩
            · rw [List.foldl_cons, updateBest_not_lt hlt, hfold]
            · rw [List.cons_append, List.cons_append, List.cons.injEq]
              exact ⟨rfl, by rw [List.cons.injEq]; exact ⟨rfl, hdec.2⟩⟩
            · intro u hu
              rcases List.mem_cons.1 hu with hu | hu
              · rw [hu]; exact hmin b (List.mem_cons_self b rest)
              · rcases List.mem_cons.1 hu with hu | hu
                · rw [hu]
                  exact le_trans (hmin b (List.mem_cons_self b rest)) hble
                · exact hmin u (List.mem_cons_of_mem b hu)
            · intro u hu
              rcases List.mem_cons.1 hu with hu | hu
              · rw [hu]; exact hpb
              · rcases List.mem_cons.1 hu with hu | hu
                · rw [hu]; exact lt_of_lt_of_le hpb hble
                · exact hstrict u (List.mem_cons_of_mem p hu)

/-- Along a successful run of `fitness` calls, the tracked best trial is
always the fold of the compare-and-swap over the ledger. -/
theorem runFitnessSeq_best_inv (ctx : BridgeContext) (cands : List (List ℝ))
    (st : BridgeState) (fits : List ℝ) (stf : BridgeState)
    (h : runFitnessSeq ctx cands st = Except.ok (fits, stf))
    (hinv : st.best_trial = st.trials.foldl updateBest Option.none) :
    stf.best_trial = stf.trials.foldl updateBest Option.none := by
  induction cands generalizing st fits stf with
  | nil =>
      rw [runFitnessSeq] at h
      simp only [Except.ok.injEq, Prod.mk.injEq] at h
      rw [← h.2]
      exact hinv
  | cons cand rest ih =>
      rw [runFitnessSeq] at h
      cases hf : fitness ctx cand st with
      | error e => rw [hf] at h; simp at h
      | ok r =>
          rw [hf] at h
          simp only [except_bind_ok] at h
          cases hr : runFitnessSeq ctx rest r.2 with
          | error e => rw [hr] at h; simp at h
          | ok q =>
              rw [hr] at h
              simp only [except_bind_ok, Except.ok.injEq, Prod.mk.injEq] at h
              obtain ⟨ps, -, -, htr, hbt⟩ := fitness_ok_state
                (by rw [hf] : fitness ctx cand st = Except.ok (r.1, r.2))
              have hinv1 : r.2.best_trial = r.2.trials.foldl updateBest Option.none := by
                rw [hbt, htr, hinv, List.foldl_append, List.foldl_cons, List.foldl_nil]
              rw [← h.2]
              exact ih r.2 q.1 q.2 (by rw [hr]) hinv1

/-- C2: within one bridge run, the tracked best trial is replaced exactly
when the new trial's fitness is strictly smaller (ties keep the earlier
trial), and once any trial is recorded, the selection used for the
returned result — the tracked best trial, via `fill_hyper_result` — has
`best_objective` equal to the minimum recorded fitness and
`best_parameters` equal to the parameters of the first trial in ledger
order achieving that minimum. -/
theorem bridge_best_selection (ctx : BridgeContext) (cands : List (List ℝ))
    (fits : List ℝ) (stf : BridgeState) (championFallback : ℝ)
    (hrun : runFitnessSeq ctx cands {} = Except.ok (fits, stf))
    (hne : stf.trials ≠ []) :
    (∀ b r, trialFitness r < trialFitness b → updateBest (some b) r = some r) ∧
    (∀ b r, ¬ trialFitness r < trialFitness b → updateBest (some b) r = some b) ∧
    ∃ t pre post,
      stf.best_trial = some t ∧
      fillHyperBest stf.best_trial stf.trials championFallback =
        (t.parameters, trialFitness t) ∧
      stf.trials = pre ++ t :: post ∧
      (∀ u ∈ stf.trials, trialFitness t ≤ trialFitness u) ∧
      (∀ u ∈ pre, trialFitness t < trialFitness u) := by
  refine ⟨fun b r h => updateBest_lt h, fun b r h => updateBest_not_lt h, ?_⟩
  have hinv := runFitnessSeq_best_inv ctx cands {} fits stf hrun rfl
  cases htr : stf.trials with
  | nil => exact absurd htr hne
  | cons t0 rest =>
      rw [htr, List.foldl_cons] at hinv
      have h0 : updateBest Option.none t0 = some t0 := rfl
      rw [h0] at hinv
      obtain ⟨t, pre, post, hfold, hdec, hmin, hstrict⟩ := foldl_updateBest_spec rest t0
      refine ⟨t, pre, post, by rw [hinv, hfold], ?_, hdec, hmin, hstrict⟩
      rw [hinv, hfold]
      simp [fillHyperBest, trialFitness]

/-- Witness for C2 on the demo run with fitness values 2, 1, 1: the second
trial — the first one achieving the minimum 1 — is selected, and the
equal-fitness third trial did not displace it. -/
theorem bridge_best_selection_witness :
    runFitnessSeq bestDemoCtx [[1], [0], [1]] {} = Except.ok ([2, 1, 1], bestDemoFinal) ∧
    bestDemoFinal.trials ≠ [] ∧
    ((∀ b r, trialFitness r < trialFitness b → updateBest (some b) r = some r) ∧
     (∀ b r, ¬ trialFitness r < trialFitness b → updateBest (some b) r = some b) ∧
     ∃ t pre post,
       bestDemoFinal.best_trial = some t ∧
       fillHyperBest bestDemoFinal.best_trial bestDemoFinal.trials 0 =
         (t.parameters, trialFitness t) ∧
       bestDemoFinal.trials = pre ++ t :: post ∧
       (∀ u ∈ bestDemoFinal.trials, trialFitness t ≤ trialFitness u) ∧
       (∀ u ∈ pre, trialFitness t < trialFitness u)) :=
  ⟨by norm_num [runFitnessSeq, fitness, decodeParams, decodeValue, applyDefaults,
      validateOverrides, addDefaults, validateValue, ParameterSpace.descriptorOf,
      List.find?, List.lookup, configFor, SearchSpace.get, u64, updateBest,
      bestDemoCtx, bestDemoFinal],
   by simp [bestDemoFinal],
   bridge_best_selection bestDemoCtx [[1], [0], [1]] [2, 1, 1] bestDemoFinal 0
     (by norm_num [runFitnessSeq, fitness, decodeParams, decodeValue, applyDefaults,
        validateOverrides, addDefaults, validateValue, ParameterSpace.descriptorOf,
        List.find?, List.lookup, configFor, SearchSpace.get, u64, updateBest,
        bestDemoCtx, bestDemoFinal])
     (by simp [bestDemoFinal])⟩

/-! ### C4: apply_defaults -/

/-- Association-list lookup skips a prefix holding no binding for the
key. -/
theorem lookup_append_of_none {β : Type} {l1 : List (String × β)}
    (l2 : List (String × β)) {k : String} (h : l1.lookup k = Option.none) :
    (l1 ++ l2).lookup k = l2.lookup k := by
  induction l1 with
  | nil => rfl
  | cons p rest ih =>
      rw [List.cons_append]
      by_cases hk : (k == p.1) = true
      · simp only [List.lookup, hk] at h
        simp at h
      · have hk2 : (k == p.1) = false := by simpa using hk
        simp only [List.lookup, hk2] at h ⊢
        exact ih h

/-- Association-list lookup returns a binding found in the prefix. -/
theorem lookup_append_of_some {β : Type} {l1 : List (String × β)}
    (l2 : List (String × β)) {k : String} {v : β} (h : l1.lookup k = some v) :
    (l1 ++ l2).lookup k = some v := by
  induction l1 with
  | nil => simp [List.lookup] at h
  | cons p rest ih =>
      rw [List.cons_append]
      by_cases hk : (k == p.1) = true
      · simp only [List.lookup, hk] at h ⊢
        exact h
      · have hk2 : (k == p.1) = false := by simpa using hk
        simp only [List.lookup, hk2] at h ⊢
        exact ih h

/-- A key held by no pair of the list looks up to nothing. -/
theorem lookup_eq_none_of_not_mem_keys {β : Type}
    (l : List (String × β)) (k : String) (h : ∀ p ∈ l, p.1 ≠ k) :
    l.lookup k = Option.none := by
  induction l with
  | nil => rfl
  | cons p rest ih =>
      simp only [List.lookup]
      have hpk : (k == p.1) = false := by
        rw [beq_eq_false_iff_ne]
        exact fun hk => h p (List.mem_cons_self p rest) hk.symm
      rw [hpk]
      exact ih (fun q hq => h q (List.mem_cons_of_mem p hq))

/-- A successful first loop of `apply_defaults` returns exactly the
override list, every entry of which was looked up and validated. -/
theorem validateOverrides_ok_spec (space : ParameterSpace) (l out : ParameterSet)
    (h : validateOverrides space l = Except.ok out) :
    out = l ∧
    ∀ p ∈ l, ∃ d, space.descriptorOf p.1 = some d ∧
      validateValue d p.2 = Except.ok () := by
  induction l generalizing out with
  | nil =>
      rw [validateOverrides] at h
      simp only [Except.ok.injEq] at h
      exact ⟨h.symm, by simp⟩
  | cons p rest ih =>
      obtain ⟨n, v⟩ := p
      rw [validateOverrides] at h
      cases hd : space.descriptorOf n with
      | none => rw [hd] at h; simp at h
      | some d =>
          simp only [hd] at h
          cases hv : validateValue d v with
          | error e => rw [hv] at h; simp at h
          | ok u =>
              rw [hv] at h
              simp only [except_bind_ok] at h
              cases hr : validateOverrides space rest with
              | error e => rw [hr] at h; simp at h
              | ok r =>
                  rw [hr] at h
                  simp only [except_bind_ok, Except.ok.injEq] at h
                  obtain ⟨hr1, hr2⟩ := ih r hr
                  refine ⟨by rw [← h, hr1], ?_⟩
                  intro q hq
                  rcases List.mem_cons.1 hq with hq | hq
                  · rw [hq]
                    exact ⟨d, hd, by cases u; exact hv⟩
                  · exact hr2 q hq
/-- A successful second loop of `apply_defaults` appends exactly the
defaults of the not-yet-present descriptors; a required descriptor
without a default must already have a value, and a descriptor without a
default that is absent going in is absent coming out. -/
theorem addDefaults_ok_spec (descs : List ParameterDescriptor)
    (acc out : ParameterSet)
    (hnd : (descs.map ParameterDescriptor.name).Nodup)
    (h : addDefaults acc descs = Except.ok out) :
    ∃ extra,
      out = acc ++ extra ∧
      (∀ p ∈ extra, ∃ d ∈ descs, d.name = p.1 ∧ d.default_value = some p.2 ∧
        acc.lookup p.1 = Option.none) ∧
      (∀ d ∈ descs, d.required = true → d.default_value = Option.none →
        (acc.lookup d.name).isSome = true) ∧
      (∀ d ∈ descs, acc.lookup d.name = Option.none →
        d.default_value = Option.none → out.lookup d.name = Option.none) := by
  induction descs generalizing acc with
  | nil =>
      rw [addDefaults] at h
      simp only [Except.ok.injEq] at h
      exact ⟨[], by rw [← h, List.append_nil], by simp, by simp, by
        intro d hd; simp at hd⟩
  | cons d rest ih =>
      rw [List.map_cons, List.nodup_cons] at hnd
      obtain ⟨hdnotin, hndrest⟩ := hnd
      have hname : ∀ d0 ∈ rest, d0.name ≠ d.name := by
        intro d0 hd0 heq
        exact hdnotin (heq ▸ List.mem_map_of_mem ParameterDescriptor.name hd0)
      rw [addDefaults] at h
      by_cases hs : (acc.lookup d.name).isSome
      · rw [if_pos hs] at h
        obtain ⟨extra, hout, hextra, hreq, habs⟩ := ih acc hndrest h
        refine ⟨extra, hout, ?_, ?_, ?_⟩
        · intro p hp
          obtain ⟨d0, hd0, hrest⟩ := hextra p hp
          exact ⟨d0, List.mem_cons_of_mem d hd0, hrest⟩
        · intro d0 hd0 hr hdef
          rcases List.mem_cons.1 hd0 with hd0 | hd0
          · rw [hd0]; exact hs
          · exact hreq d0 hd0 hr hdef
        · intro d0 hd0 hnone hdef
          rcases List.mem_cons.1 hd0 with hd0 | hd0
          · rw [hd0] at hnone
            rw [hnone] at hs
            simp at hs
          · exact habs d0 hd0 hnone hdef
      · rw [if_neg hs] at h
        have hnone : acc.lookup d.name = Option.none :=
          Option.not_isSome_iff_eq_none.1 hs
        cases hdv : d.default_value with
        | some dv =>
            simp only [hdv] at h
            cases hv : validateValue d dv with
            | error e => rw [hv] at h; simp at h
            | ok u =>
                rw [hv] at h
                simp only [except_bind_ok] at h
                obtain ⟨extra, hout, hextra, hreq, habs⟩ :=
                  ih (acc ++ [(d.name, dv)]) hndrest h
                refine ⟨(d.name, dv) :: extra, ?_, ?_, ?_, ?_⟩
                · rw [hout, List.append_assoc, List.singleton_append]
                · intro p hp
                  rcases List.mem_cons.1 hp with hp | hp
                  · exact ⟨d, List.mem_cons_self d rest, by rw [hp],
                      by rw [hp, hdv], by rw [hp]; exact hnone⟩
                  · obtain ⟨d0, hd0, hn0, hv0, hl0⟩ := hextra p hp
                    refine ⟨d0, List.mem_cons_of_mem d hd0, hn0, hv0, ?_⟩
                    cases hacc : acc.lookup p.1 with
                    | some w =>
                        rw [lookup_append_of_some [(d.name, dv)] hacc] at hl0
                        simp at hl0
                    | none => rfl
                · intro d0 hd0 hr hdef
                  rcases List.mem_cons.1 hd0 with hd0 | hd0
                  · rw [hd0, hdv] at hdef; simp at hdef
                  · have hthis := hreq d0 hd0 hr hdef
                    cases hacc : acc.lookup d0.name with
                    | some w => simp [hacc]
                    | none =>
                        rw [lookup_append_of_none [(d.name, dv)] hacc] at hthis
                        have hne : (d0.name == d.name) = false := by
                          rw [beq_eq_false_iff_ne]
                          exact hname d0 hd0
                        simp [List.lookup, hne] at hthis
                · intro d0 hd0 hnone0 hdef
                  rcases List.mem_cons.1 hd0 with hd0 | hd0
                  · rw [hd0, hdv] at hdef; simp at hdef
                  · refine habs d0 hd0 ?_ hdef
                    rw [lookup_append_of_none [(d.name, dv)] hnone0]
                    have hne : (d0.name == d.name) = false := by
                      rw [beq_eq_false_iff_ne]
                      exact hname d0 hd0
                    simp [List.lookup, hne]
        | none =>
            simp only [hdv] at h
            by_cases hreqd : d.required
            · rw [if_pos hreqd] at h; simp at h
            · rw [if_neg hreqd] at h
              obtain ⟨extra, hout, hextra, hreq, habs⟩ := ih acc hndrest h
              refine ⟨extra, hout, ?_, ?_, ?_⟩
              · intro p hp
                obtain ⟨d0, hd0, hrest⟩ := hextra p hp
                exact ⟨d0, List.mem_cons_of_mem d hd0, hrest⟩
              · intro d0 hd0 hr hdef
                rcases List.mem_cons.1 hd0 with hd0 | hd0
                · rw [hd0] at hr
                  exact absurd hr (by simpa using hreqd)
                · exact hreq d0 hd0 hr hdef
              · intro d0 hd0 hnone0 hdef
                rcases List.mem_cons.1 hd0 with hd0 | hd0
                · rw [hd0] at hnone0
                  rw [hout, hd0, lookup_append_of_none extra hnone0]
                  apply lookup_eq_none_of_not_mem_keys
                  intro p hp heq
                  obtain ⟨d1, hd1, hn1, -, -⟩ := hextra p hp
                  exact hname d1 hd1 (by rw [hn1, heq])
                · exact habs d0 hd0 hnone0 hdef

/-- C4: a successful `apply_defaults(overrides)` call returns exactly the
validated overrides plus, for every descriptor not overridden, its
default value when one exists; success forces every required descriptor
to have an override or a default (so a required descriptor with neither
raises a validation error); a descriptor with no default and no override
is absent from the result. -/
theorem apply_defaults_characterization (space : ParameterSpace)
    (ovr res : ParameterSet)
    (hspace : (space.map ParameterDescriptor.name).Nodup)
    (h : applyDefaults space ovr = Except.ok res) :
    (∀ p ∈ ovr, ∃ d, space.descriptorOf p.1 = some d ∧
      validateValue d p.2 = Except.ok ()) ∧
    (∀ p ∈ ovr, p ∈ res) ∧
    (∀ p ∈ res, p ∈ ovr ∨ ∃ d ∈ space, d.name = p.1 ∧
      d.default_value = some p.2 ∧ ovr.lookup p.1 = Option.none) ∧
    (∀ d ∈ space, d.required = true → ovr.lookup d.name = Option.none →
      d.default_value ≠ Option.none) ∧
    (∀ d ∈ space, d.default_value = Option.none →
      ovr.lookup d.name = Option.none → res.lookup d.name = Option.none) := by
  rw [applyDefaults] at h
  cases hb : validateOverrides space ovr with
  | error e => rw [hb] at h; simp at h
  | ok base =>
      rw [hb] at h
      simp only [except_bind_ok] at h
      obtain ⟨hbase, hvalid⟩ := validateOverrides_ok_spec space ovr base hb
      rw [hbase] at h
      obtain ⟨extra, hout, hextra, hreq, habs⟩ :=
        addDefaults_ok_spec space ovr res hspace h
      refine ⟨hvalid, ?_, ?_, ?_, ?_⟩
      · intro p hp
        rw [hout]
        exact List.mem_append_left extra hp
      · intro p hp
        rw [hout] at hp
        rcases List.mem_append.1 hp with hp | hp
        · exact Or.inl hp
        · obtain ⟨d, hd, hn, hv, hl⟩ := hextra p hp
          exact Or.inr ⟨d, hd, hn, hv, hn ▸ hl⟩
      · intro d hd hr hnone
        intro hdef
        have := hreq d hd hr hdef
        rw [hnone] at this
        simp at this
      · intro d hd hdef hnone
        exact habs d hd hnone hdef

/-- Witness for C4 on the spec's example space: overriding `x` with 0.9
yields `{x : 0.9, n : 5}` and all five characterizing properties hold. -/
theorem apply_defaults_characterization_witness :
    applyDefaults demoSpace [("x", ParameterValue.real (9 / 10))] =
      Except.ok [("x", ParameterValue.real (9 / 10)), ("n", ParameterValue.int 5)] ∧
    ((∀ p ∈ ([("x", ParameterValue.real (9 / 10))] : ParameterSet),
        ∃ d, demoSpace.descriptorOf p.1 = some d ∧
          validateValue d p.2 = Except.ok ()) ∧
     (∀ p ∈ ([("x", ParameterValue.real (9 / 10))] : ParameterSet),
        p ∈ ([("x", ParameterValue.real (9 / 10)), ("n", ParameterValue.int 5)] : ParameterSet)) ∧
     (∀ p ∈ ([("x", ParameterValue.real (9 / 10)), ("n", ParameterValue.int 5)] : ParameterSet),
        p ∈ ([("x", ParameterValue.real (9 / 10))] : ParameterSet) ∨
          ∃ d ∈ demoSpace, d.name = p.1 ∧ d.default_value = some p.2 ∧
            ([("x", ParameterValue.real (9 / 10))] : ParameterSet).lookup p.1 = Option.none) ∧
     (∀ d ∈ demoSpace, d.required = true →
        ([("x", ParameterValue.real (9 / 10))] : ParameterSet).lookup d.name = Option.none →
        d.default_value ≠ Option.none) ∧
     (∀ d ∈ demoSpace, d.default_value = Option.none →
        ([("x", ParameterValue.real (9 / 10))] : ParameterSet).lookup d.name = Option.none →
        ([("x", ParameterValue.real (9 / 10)), ("n", ParameterValue.int 5)] : ParameterSet).lookup d.name = Option.none)) :=
  ⟨by
     norm_num [applyDefaults, validateOverrides, addDefaults, validateValue,
       demoSpace, ParameterSpace.descriptorOf, List.find?, List.lookup],
   apply_defaults_characterization demoSpace [("x", ParameterValue.real (9 / 10))]
     [("x", ParameterValue.real (9 / 10)), ("n", ParameterValue.int 5)]
     (by simp [demoSpace])
     (by
       norm_num [applyDefaults, validateOverrides, addDefaults, validateValue,
         demoSpace, ParameterSpace.descriptorOf, List.find?, List.lookup])⟩

/-! ### C5: fixed parameters in the bridge decode -/

/-- Unfolding of the `fitness` descriptor walk at a cons cell. -/
theorem decodeParams_cons_eq (ss : Option SearchSpace) (d : ParameterDescriptor)
    (rest : List ParameterDescriptor) (candidate : List ℝ) :
    decodeParams ss (d :: rest) candidate =
      (match configFor ss d.name with
       | some c =>
           match c.mode with
           | SearchMode.fixed =>
               (match c.fixed_value with
                | some v =>
                    (fun p => ((d.name, v) :: p.1, p.2)) <$> decodeParams ss rest candidate
                | Option.none => decodeParams ss rest candidate)
           | SearchMode.exclude => decodeParams ss rest candidate
           | SearchMode.optimize =>
               match candidate with
               | [] => Except.error "candidate vector exhausted"
               | x :: crest => do
                   let v ← decodeValue (some c) d x
                   (fun p => ((d.name, v) :: p.1, p.2)) <$> decodeParams ss rest crest
       | Option.none =>
           match candidate with
           | [] => Except.error "candidate vector exhausted"
           | x :: crest => do
               let v ← decodeValue Option.none d x
               (fun p => ((d.name, v) :: p.1, p.2)) <$> decodeParams ss rest crest) := rfl

/-- Case analysis on one step of the `fitness` descriptor walk. -/
theorem decodeParams_cons_cases (ss : Option SearchSpace)
    (d : ParameterDescriptor) (rest : List ParameterDescriptor)
    (cand : List ℝ) (ps : ParameterSet) (leftover : List ℝ)
    (h : decodeParams ss (d :: rest) cand = Except.ok (ps, leftover)) :
    (∃ c v ps2, configFor ss d.name = some c ∧ c.mode = SearchMode.fixed ∧
       c.fixed_value = some v ∧ ps = (d.name, v) :: ps2 ∧
       decodeParams ss rest cand = Except.ok (ps2, leftover) ∧
       isSkipped ss d = true) ∨
    (∃ c, configFor ss d.name = some c ∧
       (c.mode = SearchMode.exclude ∨
        (c.mode = SearchMode.fixed ∧ c.fixed_value = Option.none)) ∧
       decodeParams ss rest cand = Except.ok (ps, leftover) ∧
       isSkipped ss d = true) ∨
    (∃ x crest pv ps2, cand = x :: crest ∧
       decodeValue (configFor ss d.name) d x = Except.ok pv ∧
       ps = (d.name, pv) :: ps2 ∧
       decodeParams ss rest crest = Except.ok (ps2, leftover) ∧
       isSkipped ss d = false) := by
  rw [decodeParams_cons_eq] at h
  cases hc : configFor ss d.name with
  | none =>
      simp only [hc] at h
      cases cand with
      | nil => simp at h
      | cons x crest =>
          simp only [] at h
          cases hv : decodeValue Option.none d x with
          | error e => rw [hv] at h; simp at h
          | ok pv =>
              rw [hv] at h
              simp only [except_bind_ok] at h
              cases hrec : decodeParams ss rest crest with
              | error e => rw [hrec] at h; simp at h
              | ok q =>
                  rw [hrec] at h
                  simp only [except_map_ok, Except.ok.injEq, Prod.mk.injEq] at h
                  refine Or.inr (Or.inr ⟨x, crest, pv, q.1, rfl, hv,
                    h.1.symm, ?_, by simp [isSkipped, hc]⟩)
                  rw [← h.2]
                  exact hrec
  | some c =>
      simp only [hc] at h
      cases hm : c.mode with
      | fixed =>
          simp only [hm] at h
          cases hv : c.fixed_value with
          | some v =>
              simp only [hv] at h
              cases hrec : decodeParams ss rest cand with
              | error e => rw [hrec] at h; simp at h
              | ok q =>
                  rw [hrec] at h
                  simp only [except_map_ok, Except.ok.injEq, Prod.mk.injEq] at h
                  refine Or.inl ⟨c, v, q.1, rfl, hm, hv, h.1.symm, ?_,
                    by simp [isSkipped, hc, hm]⟩
                  rw [← h.2]
          | none =>
              simp only [hv] at h
              exact Or.inr (Or.inl ⟨c, rfl, Or.inr ⟨hm, hv⟩, h,
                by simp [isSkipped, hc, hm]⟩)
      | exclude =>
          simp only [hm] at h
          exact Or.inr (Or.inl ⟨c, rfl, Or.inl hm, h,
            by simp [isSkipped, hc, hm]⟩)
      | optimize =>
          simp only [hm] at h
          cases cand with
          | nil => simp at h
          | cons x crest =>
              simp only [] at h
              cases hv : decodeValue (some c) d x with
              | error e => rw [hv] at h; simp at h
              | ok pv =>
                  rw [hv] at h
                  simp only [except_bind_ok] at h
                  cases hrec : decodeParams ss rest crest with
                  | error e => rw [hrec] at h; simp at h
                  | ok q =>
                      rw [hrec] at h
                      simp only [except_map_ok, Except.ok.injEq, Prod.mk.injEq] at h
                      refine Or.inr (Or.inr ⟨x, crest, pv, q.1, rfl,
                        hv, h.1.symm, ?_, by simp [isSkipped, hc, hm]⟩)
                      rw [← h.2]
                      exact hrec

/-- The decoded set's keys follow the descriptor declaration order. -/
theorem decodeParams_keys_sublist (ss : Option SearchSpace)
    (descs : List ParameterDescriptor) (cand : List ℝ) (ps : ParameterSet)
    (leftover : List ℝ)
    (h : decodeParams ss descs cand = Except.ok (ps, leftover)) :
    (ps.map Prod.fst).Sublist (descs.map ParameterDescriptor.name) := by
  induction descs generalizing cand ps leftover with
  | nil =>
      rw [decodeParams] at h
      simp only [Except.ok.injEq, Prod.mk.injEq] at h
      rw [← h.1]
      simp
  | cons d rest ih =>
      rcases decodeParams_cons_cases ss d rest cand ps leftover h with
        ⟨c, v, ps2, -, -, -, hps, hrec, -⟩ |
        ⟨c, -, -, hrec, -⟩ |
        ⟨x, crest, pv, ps2, -, -, hps, hrec, -⟩
      · rw [hps, List.map_cons, List.map_cons]
        exact List.Sublist.cons₂ d.name (ih cand ps2 leftover hrec)
      · rw [List.map_cons]
        exact List.Sublist.cons d.name (ih cand ps leftover hrec)
      · rw [hps, List.map_cons, List.map_cons]
        exact List.Sublist.cons₂ d.name (ih crest ps2 leftover hrec)

/-- The descriptor walk consumes exactly one candidate slot per
non-skipped descriptor. -/
theorem decodeParams_consumes (ss : Option SearchSpace)
    (descs : List ParameterDescriptor) (cand : List ℝ) (ps : ParameterSet)
    (leftover : List ℝ)
    (h : decodeParams ss descs cand = Except.ok (ps, leftover)) :
    cand.length = descs.countP (fun d => !(isSkipped ss d)) + leftover.length := by
  induction descs generalizing cand ps leftover with
  | nil =>
      rw [decodeParams] at h
      simp only [Except.ok.injEq, Prod.mk.injEq] at h
      rw [← h.2]
      simp
  | cons d rest ih =>
      rcases decodeParams_cons_cases ss d rest cand ps leftover h with
        ⟨c, v, ps2, -, -, -, hps, hrec, hskip⟩ |
        ⟨c, -, -, hrec, hskip⟩ |
        ⟨x, crest, pv, ps2, hcand, -, hps, hrec, hskip⟩
      · rw [List.countP_cons, hskip]
        have := ih cand ps2 leftover hrec
        simpa using this
      · rw [List.countP_cons, hskip]
        have := ih cand ps leftover hrec
        simpa using this
      · rw [List.countP_cons, hskip, hcand]
        have hlen := ih crest ps2 leftover hrec
        simp only [List.length_cons, Bool.not_false, if_true]
        omega

/-- A fixed search-space entry with a pinned value injects exactly that
value for its descriptor into the decoded set. -/
theorem decodeParams_fixed_mem (ss : SearchSpace)
    (descs : List ParameterDescriptor) (cand : List ℝ) (ps : ParameterSet)
    (leftover : List ℝ) (d : ParameterDescriptor) (c : ParameterConfig)
    (v : ParameterValue)
    (h : decodeParams (some ss) descs cand = Except.ok (ps, leftover))
    (hd : d ∈ descs)
    (hcfg : SearchSpace.get ss d.name = some c)
    (hmode : c.mode = SearchMode.fixed)
    (hval : c.fixed_value = some v) :
    (d.name, v) ∈ ps := by
  induction descs generalizing cand ps leftover with
  | nil => simp at hd
  | cons d0 rest ih =>
      have hcfg0 : configFor (some ss) d.name = some c := by
        simp [configFor, hcfg]
      rcases List.mem_cons.1 hd with hdd | hdd
      · rcases decodeParams_cons_cases (some ss) d0 rest cand ps leftover h with
          ⟨c2, v2, ps2, hc2, -, hv2, hps, -, -⟩ |
          ⟨c2, hc2, hdis, -, -⟩ |
          ⟨x, crest, pv, ps2, -, -, -, -, hskip⟩
        · rw [← hdd] at hc2
          rw [hcfg0] at hc2
          injection hc2 with hc2
          rw [← hc2] at hv2
          rw [hval] at hv2
          injection hv2 with hv2
          rw [hps, ← hdd, hv2]
          exact List.mem_cons_self _ _
        · rw [← hdd] at hc2
          rw [hcfg0] at hc2
          injection hc2 with hc2
          rw [← hc2] at hdis
          rcases hdis with hdis | hdis
          · rw [hmode] at hdis; simp at hdis
          · rw [hval] at hdis; simp at hdis
        · rw [← hdd] at hskip
          simp [isSkipped, hcfg0, hmode] at hskip
      · rcases decodeParams_cons_cases (some ss) d0 rest cand ps leftover h with
          ⟨c2, v2, ps2, -, -, -, hps, hrec, -⟩ |
          ⟨c2, -, -, hrec, -⟩ |
          ⟨x, crest, pv, ps2, -, -, hps, hrec, -⟩
        · rw [hps]
          exact List.mem_cons_of_mem _ (ih cand ps2 leftover hrec hdd)
        · exact ih cand ps leftover hrec hdd
        · rw [hps]
          exact List.mem_cons_of_mem _ (ih crest ps2 leftover hrec hdd)

/-- With unique keys, membership determines lookup. -/
theorem lookup_of_mem_nodup {β : Type} (l : List (String × β)) (k : String)
    (v : β) (hnd : (l.map Prod.fst).Nodup) (hmem : (k, v) ∈ l) :
    l.lookup k = some v := by
  induction l with
  | nil => simp at hmem
  | cons p rest ih =>
      rw [List.map_cons, List.nodup_cons] at hnd
      rcases List.mem_cons.1 hmem with hmem | hmem
      · rw [← hmem]
        simp [List.lookup]
      · have hne : (k == p.1) = false := by
          rw [beq_eq_false_iff_ne]
          intro hk
          exact hnd.1 (hk ▸ List.mem_map_of_mem Prod.fst hmem)
        simp only [List.lookup, hne]
        exact ih hnd.2 hmem

/-- The bridge dimension count is the count of non-skipped descriptors. -/
theorem getOptimizationDimension_eq_countP (ss : SearchSpace)
    (space : ParameterSpace) :
    getOptimizationDimension ss space =
      space.countP (fun d => !(isSkipped (some ss) d)) := by
  rw [getOptimizationDimension]
  apply List.countP_congr
  intro d _
  cases hc : configFor (some ss) d.name with
  | none =>
      have h2 : ss.lookup d.name = Option.none := by
        simpa [configFor, SearchSpace.get] using hc
      simp [isSkipped, h2, hc]
  | some c =>
      have h2 : ss.lookup d.name = some c := by
        simpa [configFor, SearchSpace.get] using hc
      simp [isSkipped, h2, hc]

/-- C5: when a search space fixes a descriptor to a pinned value, a
successful decode injects exactly that value (no inverse transform, since
the value is passed through verbatim), the completed set after
`apply_defaults` still maps the descriptor to exactly that value, the
walk consumes one candidate slot per non-skipped descriptor only — the
fixed one consumes none — and `get_optimization_dimension` does not count
it, so the coded vector is strictly shorter than the descriptor list. -/
theorem fixed_param_pinned (space : ParameterSpace) (ss : SearchSpace)
    (cand : List ℝ) (d : ParameterDescriptor) (c : ParameterConfig)
    (v : ParameterValue) (ps : ParameterSet) (leftover : List ℝ)
    (res : ParameterSet)
    (hspace : (space.map ParameterDescriptor.name).Nodup)
    (hd : d ∈ space)
    (hcfg : SearchSpace.get ss d.name = some c)
    (hmode : c.mode = SearchMode.fixed)
    (hval : c.fixed_value = some v)
    (hdec : decodeParams (some ss) space cand = Except.ok (ps, leftover))
    (hdef : applyDefaults space ps = Except.ok res) :
    ps.lookup d.name = some v ∧
    res.lookup d.name = some v ∧
    cand.length = getOptimizationDimension ss space + leftover.length ∧
    isSkipped (some ss) d = true ∧
    getOptimizationDimension ss space < space.length := by
  have hmem : (d.name, v) ∈ ps :=
    decodeParams_fixed_mem ss space cand ps leftover d c v hdec hd hcfg hmode hval
  have hkeys : (ps.map Prod.fst).Nodup :=
    (decodeParams_keys_sublist (some ss) space cand ps leftover hdec).nodup hspace
  have hps : ps.lookup d.name = some v := lookup_of_mem_nodup ps d.name v hkeys hmem
  have hskip : isSkipped (some ss) d = true := by
    have hc2 : configFor (some ss) d.name = some c := by simp [configFor, hcfg]
    simp [isSkipped, hc2, hmode]
  refine ⟨hps, ?_, ?_, hskip, ?_⟩
  · rw [applyDefaults] at hdef
    cases hb : validateOverrides space ps with
    | error e => rw [hb] at hdef; simp at hdef
    | ok base =>
        rw [hb] at hdef
        simp only [except_bind_ok] at hdef
        obtain ⟨hbase, -⟩ := validateOverrides_ok_spec space ps base hb
        rw [hbase] at hdef
        obtain ⟨extra, hout, -, -, -⟩ := addDefaults_ok_spec space ps res hspace hdef
        rw [hout]
        exact lookup_append_of_some extra hps
  · rw [getOptimizationDimension_eq_countP]
    exact decodeParams_consumes (some ss) space cand ps leftover hdec
  · rw [getOptimizationDimension_eq_countP]
    have hle : space.countP (fun d0 => !(isSkipped (some ss) d0)) ≤ space.length :=
      List.countP_le_length _
    rcases lt_or_eq_of_le hle with hlt | heq
    · exact hlt
    · exfalso
      have hall := List.countP_eq_length.1 heq
      have hd2 := hall d hd
      simp [hskip] at hd2

/-- Witness for C5: fixing `n := 3` in a two-parameter space pins the
decoded `n` to exactly 3, consumes one slot (for `x`) out of a
one-dimensional candidate, and the optimization dimension is 1 < 2. -/
theorem fixed_param_pinned_witness :
    decodeParams (some fixedDemoSearch) fixedDemoSpace [7 / 10] =
      Except.ok ([("n", ParameterValue.int 3), ("x", ParameterValue.real (7 / 10))], []) ∧
    applyDefaults fixedDemoSpace
      [("n", ParameterValue.int 3), ("x", ParameterValue.real (7 / 10))] =
      Except.ok [("n", ParameterValue.int 3), ("x", ParameterValue.real (7 / 10))] ∧
    (([("n", ParameterValue.int 3), ("x", ParameterValue.real (7 / 10))] : ParameterSet).lookup "n" =
        some (ParameterValue.int 3) ∧
     ([("n", ParameterValue.int 3), ("x", ParameterValue.real (7 / 10))] : ParameterSet).lookup "n" =
        some (ParameterValue.int 3) ∧
     ([(7 / 10 : ℝ)] : List ℝ).length =
        getOptimizationDimension fixedDemoSearch fixedDemoSpace + ([] : List ℝ).length ∧
     isSkipped (some fixedDemoSearch)
       { name := "n", type := ParameterType.Integer,
         integer_range := some ⟨1, 10⟩,
         default_value := some (ParameterValue.int 5) } = true ∧
     getOptimizationDimension fixedDemoSearch fixedDemoSpace < fixedDemoSpace.length) := by
  refine ⟨?_, ?_, ?_⟩
  · norm_num [decodeParams, decodeValue, applyTransform, clampR, configFor,
      SearchSpace.get, List.lookup, fixedDemoSearch, fixedDemoSpace]
  · norm_num [applyDefaults, validateOverrides, addDefaults, validateValue,
      fixedDemoSpace, ParameterSpace.descriptorOf, List.find?, List.lookup]
  · exact fixed_param_pinned fixedDemoSpace fixedDemoSearch [7 / 10]
      { name := "n", type := ParameterType.Integer,
        integer_range := some ⟨1, 10⟩,
        default_value := some (ParameterValue.int 5) }
      { mode := SearchMode.fixed, fixed_value := some (ParameterValue.int 3) }
      (ParameterValue.int 3)
      [("n", ParameterValue.int 3), ("x", ParameterValue.real (7 / 10))] []
      [("n", ParameterValue.int 3), ("x", ParameterValue.real (7 / 10))]
      (by simp [fixedDemoSpace])
      (by simp [fixedDemoSpace])
      (by simp [fixedDemoSearch, SearchSpace.get, List.lookup])
      rfl rfl
      (by norm_num [decodeParams, decodeValue, applyTransform, clampR, configFor,
        SearchSpace.get, List.lookup, fixedDemoSearch, fixedDemoSpace])
      (by norm_num [applyDefaults, validateOverrides, addDefaults, validateValue,
        fixedDemoSpace, ParameterSpace.descriptorOf, List.find?, List.lookup])



/-! ### C6: transform round-trip laws -/

/-- What a successful `validate_transform_bounds` guarantees: ordered
bounds and a lower bound inside the transform's domain. -/
theorem validateTransformBounds_ok {lo hi : ℝ} {t : Transform}
    (h : validateTransformBounds ⟨lo, hi⟩ t = Except.ok ()) :
    lo ≤ hi ∧ ((t = Transform.log ∨ t = Transform.log2) → 0 < lo) ∧
      (t = Transform.sqrt → 0 ≤ lo) := by
  simp only [validateTransformBounds] at h
  by_cases h1 : lo > hi
  · rw [if_pos h1] at h
    simp at h
  · rw [if_neg h1] at h
    refine ⟨not_lt.1 h1, ?_, ?_⟩
    · intro ht
      rcases ht with ht | ht
      · subst ht
        simp only [] at h
        by_cases h2 : lo ≤ 0
        · rw [if_pos h2] at h; simp at h
        · exact not_le.1 h2
      · subst ht
        simp only [] at h
        by_cases h2 : lo ≤ 0
        · rw [if_pos h2] at h; simp at h
        · exact not_le.1 h2
    · intro ht
      subst ht
      simp only [] at h
      by_cases h2 : lo < 0
      · rw [if_pos h2] at h; simp at h
      · exact not_lt.1 h2

/-- C6: for every transform in {none, log10, log2, sqrt} and every `x`
inside bounds `[lo, hi]` that pass the transform's domain validation,
decoding the encoded coordinate returns exactly `x` (the floating
"up to tolerance" law, exact in the real-number model), and
`transform_bounds` maps the endpoints to encoded values that decode back
to `lo` and `hi`. -/
theorem transform_roundtrip (t : Transform) (lo hi x : ℝ)
    (hdom : validateTransformBounds ⟨lo, hi⟩ t = Except.ok ())
    (hx1 : lo ≤ x) (hx2 : x ≤ hi) :
    applyTransform (encodeTransform x t) t = x ∧
    transformBounds ⟨lo, hi⟩ t =
      Except.ok ⟨encodeTransform lo t, encodeTransform hi t⟩ ∧
    applyTransform (encodeTransform lo t) t = lo ∧
    applyTransform (encodeTransform hi t) t = hi := by
  obtain ⟨hle, hlog, hsqrt⟩ := validateTransformBounds_ok hdom
  have htb : transformBounds ⟨lo, hi⟩ t =
      Except.ok ⟨encodeTransform lo t, encodeTransform hi t⟩ := by
    rw [transformBounds, hdom]
    rfl
  have key : ∀ y, lo ≤ y → y ≤ hi → applyTransform (encodeTransform y t) t = y := by
    intro y hy1 _hy2
    cases t with
    | none => rfl
    | log =>
        have h0 : (0 : ℝ) < y := lt_of_lt_of_le (hlog (Or.inl rfl)) hy1
        simp only [applyTransform, encodeTransform]
        exact Real.rpow_logb (by norm_num) (by norm_num) h0
    | log2 =>
        have h0 : (0 : ℝ) < y := lt_of_lt_of_le (hlog (Or.inr rfl)) hy1
        simp only [applyTransform, encodeTransform]
        exact Real.rpow_logb (by norm_num) (by norm_num) h0
    | sqrt =>
        have h0 : (0 : ℝ) ≤ y := le_trans (hsqrt rfl) hy1
        simp only [applyTransform, encodeTransform]
        exact Real.mul_self_sqrt h0
  exact ⟨key x hx1 hx2, htb, key lo le_rfl hle, key hi hle le_rfl⟩

/-- Witness for C6 at the log10 transform on `[1, 100]` with `x = 10`. -/
theorem transform_roundtrip_witness :
    validateTransformBounds ⟨1, 100⟩ Transform.log = Except.ok () ∧
    (applyTransform (encodeTransform 10 Transform.log) Transform.log = 10 ∧
     transformBounds ⟨1, 100⟩ Transform.log =
       Except.ok ⟨encodeTransform 1 Transform.log, encodeTransform 100 Transform.log⟩ ∧
     applyTransform (encodeTransform 1 Transform.log) Transform.log = 1 ∧
     applyTransform (encodeTransform 100 Transform.log) Transform.log = 100) :=
  ⟨by norm_num [validateTransformBounds],
   transform_roundtrip Transform.log 1 100 10
     (by norm_num [validateTransformBounds]) (by norm_num) (by norm_num)⟩


/-! ### C7: validate_and_clamp -/

/-- Continuous clamping is the interval intersection: never below either
lower bound, never above either upper bound. -/
theorem clampBoundsC_spec (a b : ContinuousRange) :
    a.lower ≤ (clampBoundsC a b).lower ∧ b.lower ≤ (clampBoundsC a b).lower ∧
    (clampBoundsC a b).upper ≤ a.upper ∧ (clampBoundsC a b).upper ≤ b.upper :=
  ⟨le_max_left _ _, le_max_right _ _, min_le_left _ _, min_le_right _ _⟩

/-- Integer clamping is the interval intersection: never below either
lower bound, never above either upper bound. -/
theorem clampBoundsI_spec (a b : IntegerRange) :
    a.lower ≤ (clampBoundsI a b).lower ∧ b.lower ≤ (clampBoundsI a b).lower ∧
    (clampBoundsI a b).upper ≤ a.upper ∧ (clampBoundsI a b).upper ≤ b.upper :=
  ⟨le_max_left _ _, le_max_right _ _, min_le_left _ _, min_le_right _ _⟩

/-- A successful continuous clamping step touches only the continuous
bounds: when both a custom bound and a declared range exist it stores
their intersection and has re-validated the transform domain, otherwise
it leaves the entry unchanged. -/
theorem clampContinuousStep_ok (d : ParameterDescriptor)
    (config c1 : ParameterConfig)
    (h : clampContinuousStep d config = Except.ok c1) :
    c1.mode = config.mode ∧ c1.transform = config.transform ∧
    c1.fixed_value = config.fixed_value ∧
    c1.discrete_choices = config.discrete_choices ∧
    c1.integer_bounds = config.integer_bounds ∧
    (∀ cb dr, config.continuous_bounds = some cb → d.continuous_range = some dr →
      c1.continuous_bounds = some (clampBoundsC cb dr) ∧
      validateTransformBounds (clampBoundsC cb dr) config.transform = Except.ok ()) ∧
    ((config.continuous_bounds = Option.none ∨ d.continuous_range = Option.none) →
      c1.continuous_bounds = config.continuous_bounds) := by
  cases hcb : config.continuous_bounds with
  | some cb =>
      cases hdr : d.continuous_range with
      | some dr =>
          simp only [clampContinuousStep, hcb, hdr] at h
          cases hval : validateTransformBounds (clampBoundsC cb dr) config.transform with
          | error e => rw [hval] at h; simp at h
          | ok u =>
              rw [hval] at h
              simp only [except_bind_ok, Except.ok.injEq] at h
              rw [← h]
              refine ⟨rfl, rfl, rfl, rfl, rfl, ?_, ?_⟩
              · intro cb2 dr2 hcb2 hdr2
                injection hcb2 with hcb2
                injection hdr2 with hdr2
                subst hcb2
                subst hdr2
                exact ⟨rfl, by cases u; exact hval⟩
              · intro hcontra
                rcases hcontra with hx | hx <;> simp at hx
      | none =>
          simp only [clampContinuousStep, hcb, hdr] at h
          simp only [Except.ok.injEq] at h
          rw [← h]
          refine ⟨rfl, rfl, rfl, rfl, rfl, ?_, fun _ => hcb⟩
          intro cb2 dr2 _hcb2 hdr2
          simp at hdr2
  | none =>
      simp only [clampContinuousStep, hcb] at h
      simp only [Except.ok.injEq] at h
      rw [← h]
      refine ⟨rfl, rfl, rfl, rfl, rfl, ?_, fun _ => hcb⟩
      intro cb2 dr2 hcb2 _hdr2
      simp at hcb2

/-- A successful integer clamping step touches only the integer bounds:
when both a custom bound and a declared range exist it stores their
non-empty intersection, otherwise it leaves the entry unchanged. -/
theorem clampIntegerStep_ok (n : String) (d : ParameterDescriptor)
    (config c1 : ParameterConfig)
    (h : clampIntegerStep n d config = Except.ok c1) :
    c1.mode = config.mode ∧ c1.transform = config.transform ∧
    c1.fixed_value = config.fixed_value ∧
    c1.discrete_choices = config.discrete_choices ∧
    c1.continuous_bounds = config.continuous_bounds ∧
    (∀ ib dr, config.integer_bounds = some ib → d.integer_range = some dr →
      c1.integer_bounds = some (clampBoundsI ib dr) ∧
      (clampBoundsI ib dr).lower ≤ (clampBoundsI ib dr).upper) ∧
    ((config.integer_bounds = Option.none ∨ d.integer_range = Option.none) →
      c1.integer_bounds = config.integer_bounds) := by
  cases hib : config.integer_bounds with
  | some ib =>
      cases hdr : d.integer_range with
      | some dr =>
          simp only [clampIntegerStep, hib, hdr] at h
          by_cases hemp : (clampBoundsI ib dr).lower > (clampBoundsI ib dr).upper
          · rw [if_pos hemp] at h; simp at h
          · rw [if_neg hemp] at h
            simp only [Except.ok.injEq] at h
            rw [← h]
            refine ⟨rfl, rfl, rfl, rfl, rfl, ?_, ?_⟩
            · intro ib2 dr2 hib2 hdr2
              injection hib2 with hib2
              injection hdr2 with hdr2
              subst hib2
              subst hdr2
              exact ⟨rfl, not_lt.1 hemp⟩
            · intro hcontra
              rcases hcontra with hx | hx <;> simp at hx
      | none =>
          simp only [clampIntegerStep, hib, hdr] at h
          simp only [Except.ok.injEq] at h
          rw [← h]
          refine ⟨rfl, rfl, rfl, rfl, rfl, ?_, fun _ => hib⟩
          intro ib2 dr2 _hib2 hdr2
          simp at hdr2
  | none =>
      simp only [clampIntegerStep, hib] at h
      simp only [Except.ok.injEq] at h
      rw [← h]
      refine ⟨rfl, rfl, rfl, rfl, rfl, ?_, fun _ => hib⟩
      intro ib2 dr2 hib2 _hdr2
      simp at hib2

/-- What one successful per-entry clamp guarantees. -/
theorem clampConfigEntry_ok_spec (space : ParameterSpace) (n : String)
    (c c2 : ParameterConfig) (h : clampConfigEntry space n c = Except.ok c2) :
    (c.mode ≠ SearchMode.optimize → c2 = c) ∧
    (c.mode = SearchMode.optimize →
      ∃ d, space.descriptorOf n = some d ∧
        c2.mode = c.mode ∧ c2.transform = c.transform ∧
        c2.fixed_value = c.fixed_value ∧
        c2.discrete_choices = c.discrete_choices ∧
        (∀ cb dr, c.continuous_bounds = some cb → d.continuous_range = some dr →
          c2.continuous_bounds = some (clampBoundsC cb dr) ∧
          validateTransformBounds (clampBoundsC cb dr) c.transform = Except.ok ()) ∧
        ((c.continuous_bounds = Option.none ∨ d.continuous_range = Option.none) →
          c2.continuous_bounds = c.continuous_bounds) ∧
        (∀ ib dr, c.integer_bounds = some ib → d.integer_range = some dr →
          c2.integer_bounds = some (clampBoundsI ib dr) ∧
          (clampBoundsI ib dr).lower ≤ (clampBoundsI ib dr).upper) ∧
        ((c.integer_bounds = Option.none ∨ d.integer_range = Option.none) →
          c2.integer_bounds = c.integer_bounds)) := by
  rw [clampConfigEntry] at h
  by_cases hm : c.mode = SearchMode.optimize
  · rw [if_neg (by simp [hm])] at h
    refine ⟨fun hc => absurd hm hc, fun _ => ?_⟩
    cases hd : space.descriptorOf n with
    | none => simp only [hd] at h; simp at h
    | some d =>
        simp only [hd] at h
        cases hc1 : clampContinuousStep d c with
        | error e => rw [hc1] at h; simp at h
        | ok c1 =>
            rw [hc1] at h
            simp only [except_bind_ok] at h
            obtain ⟨m1, t1, f1, dc1, ib1, cont1, contid1⟩ :=
              clampContinuousStep_ok d c c1 hc1
            obtain ⟨m2, t2, f2, dc2, cb2, int2, intid2⟩ :=
              clampIntegerStep_ok n d c1 c2 h
            refine ⟨d, rfl, by rw [m2, m1], by rw [t2, t1], by rw [f2, f1],
              by rw [dc2, dc1], ?_, ?_, ?_, ?_⟩
            · intro cb dr hcb hdr
              obtain ⟨he, hv⟩ := cont1 cb dr hcb hdr
              exact ⟨by rw [cb2, he], hv⟩
            · intro hnone
              rw [cb2]
              exact contid1 hnone
            · intro ib dr hib hdr
              exact int2 ib dr (by rw [ib1, hib]) hdr
            · intro hnone
              rw [ib1] at intid2
              exact intid2 hnone
  · rw [if_pos hm] at h
    simp only [Except.ok.injEq] at h
    exact ⟨fun _ => h.symm, fun hc => absurd hc hm⟩

/-- The clamping loop preserves length and names and relates each output
entry to the successful clamp of the input entry with the same name. -/
theorem clampEntries_spec (space : ParameterSpace) (ss out : SearchSpace)
    (h : clampEntries space ss = Except.ok out) :
    out.length = ss.length ∧
    ∀ p2 ∈ out, ∃ c, (p2.1, c) ∈ ss ∧
      clampConfigEntry space p2.1 c = Except.ok p2.2 := by
  induction ss generalizing out with
  | nil =>
      rw [clampEntries] at h
      simp only [Except.ok.injEq] at h
      rw [← h]
      exact ⟨rfl, by simp⟩
  | cons e rest ih =>
      rw [clampEntries] at h
      cases hc : clampConfigEntry space e.1 e.2 with
      | error err => rw [hc] at h; simp at h
      | ok c2 =>
          rw [hc] at h
          simp only [except_bind_ok] at h
          cases hrest : clampEntries space rest with
          | error err => rw [hrest] at h; simp at h
          | ok outr =>
              rw [hrest] at h
              simp only [except_bind_ok, Except.ok.injEq] at h
              obtain ⟨hlen, hmem⟩ := ih outr hrest
              rw [← h]
              refine ⟨by simp [hlen], ?_⟩
              intro p2 hp2
              rcases List.mem_cons.1 hp2 with hp2 | hp2
              · exact ⟨e.2, by rw [hp2]; exact List.mem_cons_self e rest,
                  by rw [hp2]; exact hc⟩
              · obtain ⟨c, hcm, hok⟩ := hmem p2 hp2
                exact ⟨c, List.mem_cons_of_mem e hcm, hok⟩

/-- C7: a successful `validate_and_clamp(space)` ran `validate` first;
the result has one entry per configured entry, and each optimize-mode
custom continuous or integer bound is replaced by its intersection with
the descriptor's declared range — never wider than either input range —
with the transform domain re-validated against the clamped continuous
bounds; success forces every integer intersection to be non-empty (an
empty clamp raises a validation error); non-optimize entries are
unchanged. -/
theorem validate_and_clamp_spec (space : ParameterSpace) (ss ss2 : SearchSpace)
    (h : SearchSpace.validateAndClamp ss space = Except.ok ss2) :
    SearchSpace.validate ss space = Except.ok () ∧
    ss2.length = ss.length ∧
    (∀ p2 ∈ ss2, ∃ c, (p2.1, c) ∈ ss ∧
      clampConfigEntry space p2.1 c = Except.ok p2.2) ∧
    (∀ n c c2, clampConfigEntry space n c = Except.ok c2 →
      (c.mode ≠ SearchMode.optimize → c2 = c) ∧
      (c.mode = SearchMode.optimize →
        ∃ d, space.descriptorOf n = some d ∧
          (∀ cb dr, c.continuous_bounds = some cb →
            d.continuous_range = some dr →
            c2.continuous_bounds = some (clampBoundsC cb dr) ∧
            validateTransformBounds (clampBoundsC cb dr) c.transform =
              Except.ok () ∧
            cb.lower ≤ (clampBoundsC cb dr).lower ∧
            dr.lower ≤ (clampBoundsC cb dr).lower ∧
            (clampBoundsC cb dr).upper ≤ cb.upper ∧
            (clampBoundsC cb dr).upper ≤ dr.upper) ∧
          (∀ ib dr, c.integer_bounds = some ib → d.integer_range = some dr →
            c2.integer_bounds = some (clampBoundsI ib dr) ∧
            (clampBoundsI ib dr).lower ≤ (clampBoundsI ib dr).upper ∧
            ib.lower ≤ (clampBoundsI ib dr).lower ∧
            dr.lower ≤ (clampBoundsI ib dr).lower ∧
            (clampBoundsI ib dr).upper ≤ ib.upper ∧
            (clampBoundsI ib dr).upper ≤ dr.upper))) := by
  rw [SearchSpace.validateAndClamp] at h
  cases hv : SearchSpace.validate ss space with
  | error e => rw [hv] at h; simp at h
  | ok u =>
      rw [hv] at h
      simp only [except_bind_ok] at h
      obtain ⟨hlen, hmem⟩ := clampEntries_spec space ss ss2 h
      refine ⟨by cases u; rfl, hlen, hmem, ?_⟩
      intro n c c2 hok
      obtain ⟨hsame, hopt⟩ := clampConfigEntry_ok_spec space n c c2 hok
      refine ⟨hsame, ?_⟩
      intro hm
      obtain ⟨d, hd, -, -, -, -, cont, -, int, -⟩ := hopt hm
      refine ⟨d, hd, ?_, ?_⟩
      · intro cb dr hcb hdr
        obtain ⟨he, hvt⟩ := cont cb dr hcb hdr
        obtain ⟨s1, s2, s3, s4⟩ := clampBoundsC_spec cb dr
        exact ⟨he, hvt, s1, s2, s3, s4⟩
      · intro ib dr hib hdr
        obtain ⟨he, hne⟩ := int ib dr hib hdr
        obtain ⟨s1, s2, s3, s4⟩ := clampBoundsI_spec ib dr
        exact ⟨he, hne, s1, s2, s3, s4⟩

/-- Witness for C7 on the two-descriptor demo space: the custom integer
bound `[0, 5]` is clamped to `[1, 5]` and the custom continuous bound
`[-1, 0.5]` to `[0, 0.5]`; the result keeps one entry per input entry. -/
theorem validate_and_clamp_spec_witness :
    SearchSpace.validateAndClamp
      [("n", { mode := SearchMode.optimize, integer_bounds := some ⟨0, 5⟩ }),
       ("x", { mode := SearchMode.optimize, continuous_bounds := some ⟨-1, 1 / 2⟩ })]
      fixedDemoSpace =
      Except.ok
        [("n", { mode := SearchMode.optimize, integer_bounds := some ⟨1, 5⟩ }),
         ("x", { mode := SearchMode.optimize, continuous_bounds := some ⟨0, 1 / 2⟩ })] ∧
    SearchSpace.validate
      [("n", { mode := SearchMode.optimize, integer_bounds := some ⟨0, 5⟩ }),
       ("x", { mode := SearchMode.optimize, continuous_bounds := some ⟨-1, 1 / 2⟩ })]
      fixedDemoSpace = Except.ok () ∧
    ([("n", ({ mode := SearchMode.optimize, integer_bounds := some ⟨1, 5⟩ } : ParameterConfig)),
      ("x", ({ mode := SearchMode.optimize, continuous_bounds := some ⟨0, 1 / 2⟩ } : ParameterConfig))] : SearchSpace).length =
      ([("n", ({ mode := SearchMode.optimize, integer_bounds := some ⟨0, 5⟩ } : ParameterConfig)),
        ("x", ({ mode := SearchMode.optimize, continuous_bounds := some ⟨-1, 1 / 2⟩ } : ParameterConfig))] : SearchSpace).length := by
  have hrun : SearchSpace.validateAndClamp
      [("n", { mode := SearchMode.optimize, integer_bounds := some ⟨0, 5⟩ }),
       ("x", { mode := SearchMode.optimize, continuous_bounds := some ⟨-1, 1 / 2⟩ })]
      fixedDemoSpace =
      Except.ok
        [("n", { mode := SearchMode.optimize, integer_bounds := some ⟨1, 5⟩ }),
         ("x", { mode := SearchMode.optimize, continuous_bounds := some ⟨0, 1 / 2⟩ })] := by
    norm_num [SearchSpace.validateAndClamp, SearchSpace.validate,
      validateConfigEntry, clampEntries, clampConfigEntry, clampContinuousStep,
      clampIntegerStep, clampBoundsC, clampBoundsI, validateTransformBounds,
      fixedDemoSpace, ParameterSpace.descriptorOf, List.find?, max_def, min_def]
  have hspec := validate_and_clamp_spec fixedDemoSpace
    [("n", { mode := SearchMode.optimize, integer_bounds := some ⟨0, 5⟩ }),
     ("x", { mode := SearchMode.optimize, continuous_bounds := some ⟨-1, 1 / 2⟩ })]
    [("n", { mode := SearchMode.optimize, integer_bounds := some ⟨1, 5⟩ }),
     ("x", { mode := SearchMode.optimize, continuous_bounds := some ⟨0, 1 / 2⟩ })]
    hrun
  exact ⟨hrun, hspec.1, hspec.2.1⟩

/-! ### C8: get_bounds -/

/-- If every descriptor is skipped, the bounds loop emits no pair. -/
theorem getBoundsLoop_all_skipped (ss : Option SearchSpace)
    (ds : List ParameterDescriptor)
    (h : ds.filter (fun d => !(isSkipped ss d)) = []) :
    getBoundsLoop ss ds = Except.ok [] := by
  induction ds with
  | nil => rfl
  | cons d rest ih =>
      rw [List.filter_cons] at h
      by_cases hs : isSkipped ss d = true
      · rw [if_neg (by simp [hs])] at h
        rw [getBoundsLoop, if_pos hs]
        exact ih h
      · rw [if_pos (by simp [Bool.eq_false_iff.2 hs])] at h
        exact absurd h (List.cons_ne_nil d _)

/-- A successful bounds loop emits exactly one pair per non-skipped
descriptor, in order, each the bound pair computed for that descriptor. -/
theorem getBoundsLoop_spec (ss : Option SearchSpace)
    (ds : List ParameterDescriptor) (pairs : List (ℝ × ℝ))
    (h : getBoundsLoop ss ds = Except.ok pairs) :
    List.Forall₂
      (fun d b => isSkipped ss d = false ∧
        boundsFor (configFor ss d.name) d = Except.ok b)
      (ds.filter (fun d => !(isSkipped ss d))) pairs := by
  induction ds generalizing pairs with
  | nil =>
      rw [getBoundsLoop] at h
      simp only [Except.ok.injEq] at h
      rw [← h]
      simp only [List.filter_nil]
      exact List.Forall₂.nil
  | cons d rest ih =>
      rw [getBoundsLoop] at h
      rw [List.filter_cons]
      by_cases hs : isSkipped ss d = true
      · rw [if_pos hs] at h
        rw [if_neg (by simp [hs])]
        exact ih pairs h
      · rw [if_neg hs] at h
        rw [if_pos (by simp [Bool.eq_false_iff.2 hs])]
        cases hb : boundsFor (configFor ss d.name) d with
        | error e => rw [hb] at h; simp at h
        | ok b =>
            rw [hb] at h
            simp only [except_bind_ok] at h
            cases hr : getBoundsLoop ss rest with
            | error e => rw [hr] at h; simp at h
            | ok r =>
                rw [hr] at h
                simp only [except_bind_ok, Except.ok.injEq] at h
                rw [← h]
                exact List.Forall₂.cons ⟨Bool.eq_false_iff.2 hs, hb⟩ (ih r hr)

/-- Unfolding of `getBounds` on a non-empty space. -/
theorem getBounds_cons_eq (d : ParameterDescriptor)
    (rest : List ParameterDescriptor) (ss : Option SearchSpace) :
    getBounds (d :: rest) ss =
      (do
        let pairs ← getBoundsLoop ss (d :: rest)
        ( match pairs with
          | [] => Except.error "All parameters are fixed or excluded"
          | _ => Except.ok pairs )) := rfl

/-- C8: `get_bounds` fails with a validation error on an empty parameter
space, and with a different one when every descriptor is fixed or
excluded; on success it returns exactly one bound pair per non-skipped
descriptor in declaration order (none for any skipped descriptor), the
pair the bounds computation yields for that descriptor. -/
theorem get_bounds_spec (space : ParameterSpace) (ss : Option SearchSpace) :
    (space = [] →
      getBounds space ss = Except.error "Algorithm parameter space is empty") ∧
    (space ≠ [] → space.filter (fun d => !(isSkipped ss d)) = [] →
      getBounds space ss = Except.error "All parameters are fixed or excluded") ∧
    (∀ pairs, getBounds space ss = Except.ok pairs →
      space ≠ [] ∧ pairs ≠ [] ∧
      List.Forall₂
        (fun d b => isSkipped ss d = false ∧
          boundsFor (configFor ss d.name) d = Except.ok b)
        (space.filter (fun d => !(isSkipped ss d))) pairs ∧
      pairs.length = space.countP (fun d => !(isSkipped ss d))) := by
  refine ⟨?_, ?_, ?_⟩
  · intro h
    rw [h]
    rfl
  · intro hne hfilt
    cases space with
    | nil => exact absurd rfl hne
    | cons d rest =>
        rw [getBounds_cons_eq, getBoundsLoop_all_skipped ss (d :: rest) hfilt]
        rfl
  · intro pairs h
    cases space with
    | nil =>
        rw [show getBounds [] ss = Except.error "Algorithm parameter space is empty" from rfl] at h
        simp at h
    | cons d rest =>
        rw [getBounds_cons_eq] at h
        cases hl : getBoundsLoop ss (d :: rest) with
        | error e => rw [hl] at h; simp at h
        | ok ps =>
            rw [hl] at h
            simp only [except_bind_ok] at h
            cases ps with
            | nil => simp at h
            | cons p ps2 =>
                simp only [Except.ok.injEq] at h
                rw [← h]
                have hforall := getBoundsLoop_spec ss (d :: rest) (p :: ps2) hl
                refine ⟨List.cons_ne_nil d rest, List.cons_ne_nil p ps2,
                  hforall, ?_⟩
                rw [List.countP_eq_length_filter]
                exact hforall.length_eq.symm

/-- Witness for C8: the empty space errors; on the two-descriptor demo
space with `n` fixed, exactly one pair is emitted — the continuous
bounds of `x` — and the fixed descriptor contributes none. -/
theorem get_bounds_spec_witness :
    getBounds [] (some fixedDemoSearch) =
      Except.error "Algorithm parameter space is empty" ∧
    getBounds fixedDemoSpace (some fixedDemoSearch) =
      Except.ok [((0 : ℝ), (1 : ℝ))] ∧
    ([((0 : ℝ), (1 : ℝ))] : List (ℝ × ℝ)) ≠ [] := by
  have h1 := (get_bounds_spec [] (some fixedDemoSearch)).1 rfl
  have heval : getBounds fixedDemoSpace (some fixedDemoSearch) =
      Except.ok [((0 : ℝ), (1 : ℝ))] := by
    norm_num [fixedDemoSpace, fixedDemoSearch, getBounds_cons_eq, getBoundsLoop,
      isSkipped, configFor, SearchSpace.get, List.lookup, boundsFor,
      transformBounds, validateTransformBounds, encodeTransform]
  have h3 := (get_bounds_spec fixedDemoSpace (some fixedDemoSearch)).2.2 _ heval
  exact ⟨h1, heval, h3.2.1⟩

/-! ### C9: experiment managers -/

/-- Unfolding: the sequential trial loop on zero remaining trials. -/
theorem seqExperimentLoop_zero (optimize : ℕ → HyperparameterOptimizationResult)
    (seeds : ℕ → ℕ) (t : ℕ) (acc : List HyperparameterOptimizationResult) :
    seqExperimentLoop optimize seeds t 0 acc = acc := rfl

/-- Unfolding: one step of the sequential trial loop. -/
theorem seqExperimentLoop_succ (optimize : ℕ → HyperparameterOptimizationResult)
    (seeds : ℕ → ℕ) (t m : ℕ) (acc : List HyperparameterOptimizationResult) :
    seqExperimentLoop optimize seeds t (m + 1) acc =
      seqExperimentLoop optimize seeds (t + 1) m (acc ++ [optimize (seeds t)]) := rfl

/-- The sequential loop appends one result per trial, in call order. -/
theorem seqExperimentLoop_spec (optimize : ℕ → HyperparameterOptimizationResult)
    (seeds : ℕ → ℕ) (m : ℕ) : ∀ (t : ℕ) (acc : List HyperparameterOptimizationResult),
    seqExperimentLoop optimize seeds t m acc =
      acc ++ (List.range' t m).map (fun i => optimize (seeds i)) := by
  induction m with
  | zero => intro t acc; simp [seqExperimentLoop_zero]
  | succ m ih =>
      intro t acc
      rw [seqExperimentLoop_succ, ih, List.range'_succ]
      simp

/-- The contiguous island slices concatenate to an initial segment of the
trial indices. -/
theorem islandTrials_flatten (k n : ℕ) : ∀ (m : ℕ),
    ((List.range m).map (islandTrials k n)).flatten =
      List.range' 0 (min (m * k) n) := by
  intro m
  induction m with
  | zero => simp
  | succ m ih =>
      rw [List.range_succ, List.map_append, List.flatten_append, ih]
      simp only [List.map_cons, List.map_nil, List.flatten_cons, List.flatten_nil,
        List.append_nil]
      rw [islandTrials]
      have hmk : m * k ≤ (m + 1) * k := Nat.mul_le_mul_right k (Nat.le_succ m)
      by_cases hc : n ≤ m * k
      · have h0 : min ((m + 1) * k) n - m * k = 0 := by omega
        have h1 : min (m * k) n = n := by omega
        have h2 : min ((m + 1) * k) n = n := by omega
        rw [h0, h1, h2]
        simp
      · have h1 : min (m * k) n = m * k := by omega
        have hL : (min ((m + 1) * k) n - m * k) + m * k = min ((m + 1) * k) n := by
          omega
        rw [h1]
        simpa [hL] using
          List.range'_append_1 0 (m * k) (min ((m + 1) * k) n - m * k)

/-- The ceiling division used for the per-island slice size covers all
trials: `num_islands * trials_per_island >= trials`. -/
theorem numIslands_mul_ceil_ge (n m : ℕ) (hm : m ≠ 0) :
    n ≤ m * ((n + m - 1) / m) := by
  have hdm := Nat.div_add_mod (n + m - 1) m
  have hlt : (n + m - 1) % m < m := Nat.mod_lt _ (Nat.pos_of_ne_zero hm)
  generalize hr : (n + m - 1) % m = r at hdm hlt
  generalize hx : m * ((n + m - 1) / m) = x at hdm ⊢
  omega

/-- When the slices cover all trials, the combined worker writes are one
write per trial index, addressed by that index. -/
theorem allWorkerWrites_eq (optimize : ℕ → HyperparameterOptimizationResult)
    (seeds : ℕ → ℕ) (m k n : ℕ) (hcov : n ≤ m * k) :
    allWorkerWrites optimize seeds m k n =
      (List.range n).map (fun t => (t, optimize (seeds t))) := by
  rw [allWorkerWrites]
  have hw : (List.range m).map (workerWrites optimize seeds k n) =
      (List.range m).map
        (fun i => (islandTrials k n i).map (fun t => (t, optimize (seeds t)))) := rfl
  rw [hw]
  have hmm : (List.range m).map
        (fun i => (islandTrials k n i).map (fun t => (t, optimize (seeds t)))) =
      ((List.range m).map (islandTrials k n)).map
        (List.map (fun t => (t, optimize (seeds t)))) := by
    rw [List.map_map]
    rfl
  rw [hmm, ← List.map_flatten, islandTrials_flatten]
  have hmin : min (m * k) n = n := by omega
  rw [hmin, ← List.range_eq_range']

/-- Applying the writes of an initial segment of trials, in index order,
fills exactly that prefix of the pre-sized array. -/
theorem applyWrites_range {α : Type} (r : ℕ → α) :
    ∀ (m n : ℕ), m ≤ n →
    applyWrites ((List.range m).map (fun t => (t, r t)))
        (List.replicate n (Option.none : Option α)) =
      ((List.range m).map (fun t => some (r t))) ++
        List.replicate (n - m) Option.none := by
  intro m
  induction m with
  | zero => intro n _; simp [applyWrites]
  | succ m ih =>
      intro n hmn
      rw [List.range_succ, List.map_append, applyWrites, List.foldl_append]
      have hinner : List.foldl (fun a w => a.set w.1 (some w.2))
          (List.replicate n (Option.none : Option α))
          ((List.range m).map (fun t => (t, r t))) =
          ((List.range m).map (fun t => some (r t))) ++
            List.replicate (n - m) Option.none := ih n (by omega)
      rw [hinner]
      simp only [List.map_cons, List.map_nil, List.foldl_cons, List.foldl_nil]
      have hlen : ((List.range m).map (fun t => some (r t))).length ≤ m := by
        simp
      rw [List.set_append_right _ _ hlen]
      have hlen2 : ((List.range m).map (fun t => some (r t))).length = m := by
        simp
      have hrep : n - m = (n - (m + 1)) + 1 := by omega
      rw [hlen2, hrep, List.replicate_succ]
      simp [List.range_succ]

/-- C9: both experiment managers reject zero trials (and the parallel one
zero islands); otherwise the sequential manager returns exactly one
result per trial, appended in call order, and the parallel manager —
whose workers write into a pre-sized array slot addressed by trial
index — returns the same trial-indexed array for every completion order
of the workers' writes. -/
theorem experiment_managers_ordered
    (optimize : ℕ → HyperparameterOptimizationResult) (seeds : ℕ → ℕ)
    (n islands : ℕ)
    (schedule : List (ℕ × HyperparameterOptimizationResult)) :
    (runExperimentSequential 0 optimize seeds =
      Except.error "trials_per_optimizer must be greater than zero") ∧
    (n ≠ 0 → runExperimentSequential n optimize seeds =
      Except.ok ((List.range n).map (fun t => optimize (seeds t)))) ∧
    (runExperimentParallel 0 islands schedule =
      Except.error "trials_per_optimizer must be greater than zero") ∧
    (n ≠ 0 → islands = 0 → runExperimentParallel n islands schedule =
      Except.error "islands must be greater than zero") ∧
    (n ≠ 0 → islands ≠ 0 →
      schedule.Perm (allWorkerWrites optimize seeds (min islands n)
        ((n + min islands n - 1) / min islands n) n) →
      runExperimentParallel n islands schedule =
        Except.ok ((List.range n).map (fun t => some (optimize (seeds t))))) := by
  refine ⟨rfl, ?_, rfl, ?_, ?_⟩
  · intro hn
    rw [runExperimentSequential, if_neg hn, seqExperimentLoop_spec]
    rw [← List.range_eq_range']
    simp
  · intro hn h0
    rw [runExperimentParallel, if_neg hn, if_pos h0]
  · intro hn hisl hperm
    have hm : min islands n ≠ 0 := by omega
    have hcov : n ≤ (min islands n) * ((n + min islands n - 1) / min islands n) :=
      numIslands_mul_ceil_ge n (min islands n) hm
    have hall := allWorkerWrites_eq optimize seeds (min islands n)
      ((n + min islands n - 1) / min islands n) n hcov
    rw [hall] at hperm
    have hmem : ∀ x ∈ schedule, x = (x.1, optimize (seeds x.1)) := by
      intro x hx
      have hx2 := hperm.mem_iff.1 hx
      obtain ⟨t, _ht, hgt⟩ := List.mem_map.1 hx2
      rw [← hgt]
    have hcomm : ∀ x ∈ schedule, ∀ y ∈ schedule,
        ∀ z : List (Option HyperparameterOptimizationResult),
        (z.set x.1 (some x.2)).set y.1 (some y.2) =
          (z.set y.1 (some y.2)).set x.1 (some x.2) := by
      intro x hx y hy z
      by_cases hxy : x.1 = y.1
      · have hxe : x = y := by
          rw [hmem x hx, hmem y hy, hxy]
        rw [hxe]
      · exact List.set_comm _ _ z hxy
    rw [runExperimentParallel, if_neg hn, if_neg hisl]
    have hfold : applyWrites schedule
        (List.replicate n (Option.none : Option HyperparameterOptimizationResult)) =
        applyWrites ((List.range n).map (fun t => (t, optimize (seeds t))))
          (List.replicate n Option.none) :=
      hperm.foldl_eq' hcomm _
    rw [hfold, applyWrites_range _ n n le_rfl]
    simp

/-- Witness for C9: three trials; the sequential manager returns the three
results in call order, and the parallel manager with two islands gives the
same trial-indexed array even when the workers' writes land in reversed
order. -/
theorem experiment_managers_ordered_witness :
    runExperimentSequential 3
        (fun s => ({ seed := s } : HyperparameterOptimizationResult))
        (fun t => 10 + t) =
      Except.ok [{ seed := 10 }, { seed := 11 }, { seed := 12 }] ∧
    runExperimentParallel 3 2
        ((allWorkerWrites
          (fun s => ({ seed := s } : HyperparameterOptimizationResult))
          (fun t => 10 + t) (min 2 3) ((3 + min 2 3 - 1) / min 2 3) 3).reverse) =
      Except.ok [some { seed := 10 }, some { seed := 11 }, some { seed := 12 }] := by
  have h := experiment_managers_ordered
    (fun s => ({ seed := s } : HyperparameterOptimizationResult))
    (fun t => 10 + t) 3 2
    ((allWorkerWrites
      (fun s => ({ seed := s } : HyperparameterOptimizationResult))
      (fun t => 10 + t) (min 2 3) ((3 + min 2 3 - 1) / min 2 3) 3).reverse)
  have hseq := h.2.1 (by decide)
  have hpar := h.2.2.2.2 (by decide) (by decide) (List.reverse_perm _)
  constructor
  · rw [hseq]
    rfl
  · rw [hpar]
    rfl

/-! ### C10: differing fallback ranges -/

/-- C10: for a Continuous descriptor with no declared range and no
search-space entry, the bridge's two sides disagree: `get_bounds` emits
the coded pair `[-1, 1]` while `fitness` clamps the decoded value into
`[-1e10, 1e10]`; for an Integer descriptor in the same situation both
sides use the same fallback `[-100, 100]`. -/
theorem fallback_ranges_differ (dc di : ParameterDescriptor) (v : ℝ)
    (hdc : dc.type = ParameterType.Continuous)
    (hcr : dc.continuous_range = Option.none)
    (hdi : di.type = ParameterType.Integer)
    (hir : di.integer_range = Option.none) :
    boundsFor Option.none dc = Except.ok (-1, 1) ∧
    decodeValue Option.none dc v =
      Except.ok (ParameterValue.real (clampR v (-(10 ^ 10)) (10 ^ 10))) ∧
    boundsFor Option.none di = Except.ok (-100, 100) ∧
    decodeValue Option.none di v =
      Except.ok (ParameterValue.int (clampI (llround v) (-100) 100)) := by
  refine ⟨?_, ?_, ?_, ?_⟩
  · simp only [boundsFor, hdc, hcr]
    norm_num [transformBounds, validateTransformBounds, encodeTransform]
  · simp only [decodeValue, hdc, hcr]
    norm_num [applyTransform]
  · simp only [boundsFor, hdi, hir]
    norm_num
  · simp only [decodeValue, hdi, hir]
    norm_num

/-- Witness for C10: a bare continuous and a bare integer descriptor; the
raw coordinate 2 lies inside both fallback clamp ranges and survives
unchanged. -/
theorem fallback_ranges_differ_witness :
    boundsFor Option.none { name := "c", type := ParameterType.Continuous } =
      Except.ok (-1, 1) ∧
    decodeValue Option.none { name := "c", type := ParameterType.Continuous } 2 =
      Except.ok (ParameterValue.real 2) ∧
    boundsFor Option.none { name := "i", type := ParameterType.Integer } =
      Except.ok (-100, 100) ∧
    decodeValue Option.none { name := "i", type := ParameterType.Integer } 2 =
      Except.ok (ParameterValue.int 2) := by
  have h := fallback_ranges_differ
    { name := "c", type := ParameterType.Continuous }
    { name := "i", type := ParameterType.Integer } 2 rfl rfl rfl rfl
  refine ⟨h.1, ?_, h.2.2.1, ?_⟩
  · rw [h.2.1]
    norm_num [clampR]
  · rw [h.2.2.2]
    have hll : llround 2 = 2 := by
      rw [llround, if_neg (by norm_num)]
      norm_num
    rw [hll]
    norm_num [clampI]

end HPOEA
